import Mathlib

/-!
# Verification of the unified-scheduler-logic locking state machine

Shallow embedding of `unified-scheduler-logic/src/lib.rs`: the per-account
(`Page`) read/write lock bookkeeping, the `SchedulingStateMachine` operations
`schedule_task`, `schedule_retryable_task`, `deschedule_task`,
`clear_retryable_tasks`, and the helper routines they call
(`attempt_lock_address`, `attempt_lock_for_execution`, `unlock`,
`rollback_locking`, `register_blocked_task_into_pages`,
`unlock_after_execution`).

Modelling conventions:
* `UniqueWeight` (Rust `u64`) is modelled as `Nat`; the code only compares
  weights, never wraps them, so no modular arithmetic is needed.
* `Counter` (Rust `u32` with `checked_add`/`checked_sub`) is modelled as
  `Nat`; `checked_sub` underflow is a panic and is modelled as `none`,
  `checked_add` aborts instead of wrapping so plain successor is faithful
  for every state that exists after a completed call.
* A Rust `BTreeMap<UniqueWeight, Task>` always uses `task.unique_weight` as
  the key of the stored task, so each map is modelled as the `Finset Nat` of
  the weights it contains; the task data behind a weight lives in a fixed
  environment `TaskEnv` mapping each weight to the task's lock-attempt list.
* Functions whose Rust originals can panic (`unreachable!`, failed `assert!`,
  checked arithmetic) return `Option`; `none` is the panic.
* `LockAttempt.uncommited_usage` is written only by the retry path of
  `attempt_lock_for_execution` and read back only later in the very same
  `try_lock_for_task` call, so it is modelled as the explicitly returned
  staged-usage list instead of mutable task state.
-/

namespace Sched

/-- `UniqueWeight`: `u64`, larger value = higher priority. -/
abbrev UniqueWeight := Nat

/-- Identity of a `Page` (one per distinct account address). -/
abbrev PageId := Nat

/-- Rust `enum RequestedUsage { Readonly, Writable }`. -/
inductive RequestedUsage where
  | Readonly
  | Writable
deriving DecidableEq, Repr

/-- Rust `enum Usage { Unused, Readonly(Counter), Writable }`. -/
inductive Usage where
  | Unused
  | Readonly (count : Nat)
  | Writable
deriving DecidableEq, Repr

/-- Rust `Usage::renew`. -/
def Usage.renew (requested_usage : RequestedUsage) : Usage :=
  match requested_usage with
  | RequestedUsage.Readonly => Usage.Readonly 1
  | RequestedUsage.Writable => Usage.Writable

/-- Rust `enum LockStatus { Succeded(Usage), Failed }` (sic). -/
inductive LockStatus where
  | Succeded (usage : Usage)
  | Failed
deriving DecidableEq, Repr

/-- Rust `struct PageInner`: the usage of one address plus the two
priority-keyed maps of blocked tasks, modelled by their key sets. -/
structure PageInner where
  usage : Usage
  writable_blocked_tasks : Finset UniqueWeight
  readonly_blocked_tasks : Finset UniqueWeight
deriving DecidableEq

/-- Rust `PageInner::default()`: unused, no blocked tasks. -/
def PageInner.default : PageInner :=
  { usage := Usage.Unused
    writable_blocked_tasks := ∅
    readonly_blocked_tasks := ∅ }

/-- Write the `usage` field of a page (Rust `page.usage = …`), leaving the
blocked-task maps untouched. -/
def PageInner.setUsage (pg : PageInner) (u : Usage) : PageInner :=
  { pg with usage := u }

@[simp] theorem PageInner.setUsage_usage (pg : PageInner) (u : Usage) :
    (pg.setUsage u).usage = u := rfl

@[simp] theorem PageInner.setUsage_writable (pg : PageInner) (u : Usage) :
    (pg.setUsage u).writable_blocked_tasks = pg.writable_blocked_tasks := rfl

@[simp] theorem PageInner.setUsage_readonly (pg : PageInner) (u : Usage) :
    (pg.setUsage u).readonly_blocked_tasks = pg.readonly_blocked_tasks := rfl

@[simp] theorem PageInner.setUsage_self (pg : PageInner) :
    pg.setUsage pg.usage = pg := rfl

/-- Rust `PageInner::blocked_tasks_mut` projected to the key set. -/
def PageInner.blocked_tasks (pg : PageInner) (requested_usage : RequestedUsage) :
    Finset UniqueWeight :=
  match requested_usage with
  | RequestedUsage.Readonly => pg.readonly_blocked_tasks
  | RequestedUsage.Writable => pg.writable_blocked_tasks

/-- Rust `PageInner::insert_blocked_task`: the `assert!(pre_existed.is_none())`
panic is `none`. -/
def PageInner.insert_blocked_task (pg : PageInner) (w : UniqueWeight)
    (requested_usage : RequestedUsage) : Option PageInner :=
  match requested_usage with
  | RequestedUsage.Readonly =>
      if w ∈ pg.readonly_blocked_tasks then none
      else some { pg with readonly_blocked_tasks := insert w pg.readonly_blocked_tasks }
  | RequestedUsage.Writable =>
      if w ∈ pg.writable_blocked_tasks then none
      else some { pg with writable_blocked_tasks := insert w pg.writable_blocked_tasks }

/-- Rust `PageInner::remove_blocked_task`: the `assert!(removed_entry.is_some())`
panic is `none`. -/
def PageInner.remove_blocked_task (pg : PageInner) (requested_usage : RequestedUsage)
    (w : UniqueWeight) : Option PageInner :=
  match requested_usage with
  | RequestedUsage.Readonly =>
      if w ∈ pg.readonly_blocked_tasks then
        some { pg with readonly_blocked_tasks := pg.readonly_blocked_tasks.erase w }
      else none
  | RequestedUsage.Writable =>
      if w ∈ pg.writable_blocked_tasks then
        some { pg with writable_blocked_tasks := pg.writable_blocked_tasks.erase w }
      else none

/-- Rust `PageInner::heaviest_blocked_writing_task`, projected to its key. -/
def PageInner.heaviest_blocked_writing_task (pg : PageInner) : Option UniqueWeight :=
  if h : pg.writable_blocked_tasks.Nonempty then some (pg.writable_blocked_tasks.max' h)
  else none

/-- Rust `PageInner::heaviest_blocked_readonly_task`, projected to its key. -/
def PageInner.heaviest_blocked_readonly_task (pg : PageInner) : Option UniqueWeight :=
  if h : pg.readonly_blocked_tasks.Nonempty then some (pg.readonly_blocked_tasks.max' h)
  else none

/-- Rust `PageInner::heavier_task` (`cmp::max_by` on the key, `None` least),
projected to keys. -/
def heavier_task (x y : Option UniqueWeight) : Option UniqueWeight :=
  match x, y with
  | none, y => y
  | some a, none => some a
  | some a, some b => some (max a b)

/-- Rust `PageInner::heaviest_blocked_task`. -/
def PageInner.heaviest_blocked_task (pg : PageInner) : Option UniqueWeight :=
  heavier_task pg.heaviest_blocked_writing_task pg.heaviest_blocked_readonly_task

/-- The boolean guard `no_heavier_other_tasks` computed inside
`SchedulingStateMachine::attempt_lock_address`. -/
def no_heavier_other_tasks (this_unique_weight : UniqueWeight) (pg : PageInner)
    (requested_usage : RequestedUsage) : Bool :=
  (match pg.heaviest_blocked_task with
   | some existing_unique_weight => decide (this_unique_weight ≥ existing_unique_weight)
   | none => true) ||
  ((match requested_usage with
    | RequestedUsage.Readonly => true
    | RequestedUsage.Writable => false) &&
   (match pg.heaviest_blocked_writing_task with
    | some existing_unique_weight => decide (this_unique_weight > existing_unique_weight)
    | none => true))

/-- Rust `SchedulingStateMachine::attempt_lock_address` (the page is passed by
value; the function only reads it and reports the would-be new usage). -/
def attempt_lock_address (this_unique_weight : UniqueWeight) (pg : PageInner)
    (requested_usage : RequestedUsage) : LockStatus :=
  let lock_status : LockStatus :=
    match pg.usage with
    | Usage.Unused => LockStatus.Succeded (Usage.renew requested_usage)
    | Usage.Readonly count =>
        match requested_usage with
        | RequestedUsage.Readonly => LockStatus.Succeded (Usage.Readonly (count + 1))
        | RequestedUsage.Writable => LockStatus.Failed
    | Usage.Writable => LockStatus.Failed
  match lock_status with
  | LockStatus.Succeded usage =>
      if no_heavier_other_tasks this_unique_weight pg requested_usage then
        LockStatus.Succeded usage
      else LockStatus.Failed
  | LockStatus.Failed => LockStatus.Failed

/-- Rust `SchedulingStateMachine::unlock`, acting on the page's usage.
Returns the new usage and `is_unused_now`; the three `unreachable!` panics and
the `Counter` underflow panic are `none`. -/
def unlock (requested_usage : RequestedUsage) (u : Usage) : Option (Usage × Bool) :=
  match u, requested_usage with
  | Usage.Readonly count, RequestedUsage.Readonly =>
      if count = 1 then some (Usage.Unused, true)
      else if count = 0 then none
      else some (Usage.Readonly (count - 1), false)
  | Usage.Readonly _, RequestedUsage.Writable => none
  | Usage.Writable, RequestedUsage.Writable => some (Usage.Unused, true)
  | Usage.Writable, RequestedUsage.Readonly => none
  | Usage.Unused, _ => none

/-! ## The scheduling state machine -/

/-- The immutable environment: for each task (identified by its globally
unique weight) the lock-attempt list built by `create_task` — page and
requested usage per attempt, writable accounts first, then read-only. -/
structure TaskEnv where
  attempts : UniqueWeight → List (PageId × RequestedUsage)

/-- The pages of a lock-attempt list. -/
def attemptPages (l : List (PageId × RequestedUsage)) : List PageId :=
  l.map Prod.fst

/-- Data-model invariant from the spec ("exactly one `LockAttempt` per page
per task"): every task's lock attempts reference pairwise-distinct pages. -/
def TaskEnv.Wf (env : TaskEnv) : Prop :=
  ∀ w, (attemptPages (env.attempts w)).Nodup

/-- Rust `struct SchedulingStateMachine` (the token fields are zero-sized
capabilities with no data; the retryable `TaskQueue` is modelled by its key
set). -/
structure MachineState where
  retryable_task_queue : Finset UniqueWeight
  active_task_count : Nat
  handled_task_count : Nat
  reschedule_count : Nat
  rescheduled_task_count : Nat
  total_task_count : Nat
  pages : PageId → PageInner

/-- Rust `SchedulingStateMachine::default()` together with the lazily-created
pages: every address starts at `Page::default()`. -/
def initialMachine : MachineState :=
  { retryable_task_queue := ∅
    active_task_count := 0
    handled_task_count := 0
    reschedule_count := 0
    rescheduled_task_count := 0
    total_task_count := 0
    pages := fun _ => PageInner.default }

/-- Point update of the page table. -/
def setPage (pages : PageId → PageInner) (p : PageId) (pg : PageInner) :
    PageId → PageInner :=
  fun q => if q = p then pg else pages q

/-- Rust `enum TaskSource { Runnable, Retryable }`. -/
inductive TaskSource where
  | Runnable
  | Retryable
deriving DecidableEq

/-- Rust `SchedulingStateMachine::attempt_lock_for_execution`: walk the lock
attempts in order, stop at the first failure.  On success the fresh
(`rollback_on_failure = true`) path writes the granted usage into the page at
once, the retry path stages it in `uncommited_usage` (returned here as the
staged list).  Returns the page table, the staged usages of the granted
prefix, and `lock_count`. -/
def attempt_lock_for_execution (pages : PageId → PageInner)
    (unique_weight : UniqueWeight) (lock_attempts : List (PageId × RequestedUsage))
    (rollback_on_failure : Bool) :
    (PageId → PageInner) × List Usage × Nat :=
  match lock_attempts with
  | [] => (pages, [], 0)
  | (p, requested_usage) :: rest =>
      match attempt_lock_address unique_weight (pages p) requested_usage with
      | LockStatus.Succeded usage =>
          let pages' :=
            if rollback_on_failure then setPage pages p ((pages p).setUsage usage)
            else pages
          let r := attempt_lock_for_execution pages' unique_weight rest rollback_on_failure
          (r.1, usage :: r.2.1, r.2.2 + 1)
      | LockStatus.Failed => (pages, [], 0)

/-- Sequential `unlock` of a list of attempts (the loop body shared by
`rollback_locking`); `none` when any `unlock` panics. -/
def unlockList (pages : PageId → PageInner) :
    List (PageId × RequestedUsage) → Option (PageId → PageInner)
  | [] => some pages
  | (p, requested_usage) :: rest =>
      match unlock requested_usage (pages p).usage with
      | none => none
      | some (u', _) => unlockList (setPage pages p ((pages p).setUsage u')) rest

/-- Rust `SchedulingStateMachine::rollback_locking`: `unlock` the first
`lock_count` attempts. -/
def rollback_locking (pages : PageId → PageInner)
    (lock_attempts : List (PageId × RequestedUsage)) (lock_count : Nat) :
    Option (PageId → PageInner) :=
  unlockList pages (lock_attempts.take lock_count)

/-- Rust `SchedulingStateMachine::register_blocked_task_into_pages`: insert
the task into the matching wait map of every page it requested. -/
def register_blocked_task_into_pages (pages : PageId → PageInner)
    (w : UniqueWeight) :
    List (PageId × RequestedUsage) → Option (PageId → PageInner)
  | [] => some pages
  | (p, requested_usage) :: rest =>
      match (pages p).insert_blocked_task w requested_usage with
      | none => none
      | some pg' => register_blocked_task_into_pages (setPage pages p pg') w rest

/-- First loop of the `TaskSource::Retryable` success branch of
`try_lock_for_task`: commit each staged `uncommited_usage` into its page and
remove the task from that page's blocked map. -/
def commitAndRemove (pages : PageId → PageInner) (w : UniqueWeight) :
    List ((PageId × RequestedUsage) × Usage) → Option (PageId → PageInner)
  | [] => some pages
  | ((p, requested_usage), usage) :: rest =>
      match ((pages p).setUsage usage).remove_blocked_task requested_usage w with
      | none => none
      | some pg' => commitAndRemove (setPage pages p pg') w rest

/-- Second loop of the `TaskSource::Retryable` success branch: for every
read-only attempt, enqueue the page's heaviest still-blocked readonly task
into the retryable queue (`entry().or_insert`, so a no-op if present). -/
def wakeReadonly (pages : PageId → PageInner) (retryable : Finset UniqueWeight) :
    List (PageId × RequestedUsage) → Finset UniqueWeight
  | [] => retryable
  | (p, requested_usage) :: rest =>
      match requested_usage with
      | RequestedUsage.Writable => wakeReadonly pages retryable rest
      | RequestedUsage.Readonly =>
          let retryable' :=
            match (pages p).heaviest_blocked_readonly_task with
            | none => retryable
            | some hw => insert hw retryable
          wakeReadonly pages retryable' rest

/-- Rust `SchedulingStateMachine::try_lock_for_task`.  The Rust function
returns `Option<R>` from the `on_success` callback; the model returns the new
state plus a `Bool` telling whether the task was scheduled (`Some` in Rust).
The outer `Option` is the panic. -/
def try_lock_for_task (env : TaskEnv) (s : MachineState) (task_source : TaskSource)
    (w : UniqueWeight) : Option (MachineState × Bool) :=
  let lock_attempts := env.attempts w
  let rollback_on_failure : Bool :=
    match task_source with
    | TaskSource.Runnable => true
    | TaskSource.Retryable => false
  let r := attempt_lock_for_execution s.pages w lock_attempts rollback_on_failure
  let lock_count := r.2.2
  if lock_count < lock_attempts.length then
    if rollback_on_failure then
      match rollback_locking r.1 lock_attempts lock_count with
      | none => none
      | some pages2 =>
          match register_blocked_task_into_pages pages2 w lock_attempts with
          | none => none
          | some pages3 => some ({ s with pages := pages3 }, false)
    else some (s, false)
  else
    match task_source with
    | TaskSource.Runnable => some ({ s with pages := r.1 }, true)
    | TaskSource.Retryable =>
        match commitAndRemove r.1 w (lock_attempts.zip r.2.1) with
        | none => none
        | some pages2 =>
            some ({ s with
                      pages := pages2
                      retryable_task_queue :=
                        wakeReadonly pages2 s.retryable_task_queue lock_attempts },
                  true)

/-- Rust `SchedulingStateMachine::schedule_task`: fresh (`Runnable`) locking,
then `total_task_count` and `active_task_count` are incremented whether or not
locking succeeded. -/
def schedule_task (env : TaskEnv) (s : MachineState) (w : UniqueWeight) :
    Option (MachineState × Bool) :=
  match try_lock_for_task env s TaskSource.Runnable w with
  | none => none
  | some (s', ok) =>
      some ({ s' with
                total_task_count := s'.total_task_count + 1
                active_task_count := s'.active_task_count + 1 }, ok)

/-- Rust `SchedulingStateMachine::schedule_retryable_task`: pop the heaviest
retryable task (if any) and relock it with `TaskSource::Retryable`;
`reschedule_count` is incremented whenever a pop happened,
`rescheduled_task_count` additionally on success.  The returned
`Option UniqueWeight` is `some w` exactly when the Rust call returns `Some`
(with the task of weight `w`). -/
def schedule_retryable_task (env : TaskEnv) (s : MachineState) :
    Option (MachineState × Option UniqueWeight) :=
  if h : s.retryable_task_queue.Nonempty then
    let w := s.retryable_task_queue.max' h
    let s0 := { s with retryable_task_queue := s.retryable_task_queue.erase w }
    match try_lock_for_task env s0 TaskSource.Retryable w with
    | none => none
    | some (s1, ok) =>
        let s2 := { s1 with reschedule_count := s1.reschedule_count + 1 }
        if ok then
          some ({ s2 with rescheduled_task_count := s2.rescheduled_task_count + 1 }, some w)
        else some (s2, none)
  else some (s, none)

/-- Loop body of `SchedulingStateMachine::unlock_after_execution`: `unlock`
every attempt in order and, whenever a page becomes unused, enqueue its
heaviest blocked task (`entry().or_insert`). -/
def unlock_after_execution (pages : PageId → PageInner)
    (retryable : Finset UniqueWeight) :
    List (PageId × RequestedUsage) →
      Option ((PageId → PageInner) × Finset UniqueWeight)
  | [] => some (pages, retryable)
  | (p, requested_usage) :: rest =>
      match unlock requested_usage (pages p).usage with
      | none => none
      | some (u', is_unused_now) =>
          let pages' := setPage pages p ((pages p).setUsage u')
          let retryable' :=
            if is_unused_now then
              match (pages' p).heaviest_blocked_task with
              | none => retryable
              | some hw => insert hw retryable
            else retryable
          unlock_after_execution pages' retryable' rest

/-- Rust `SchedulingStateMachine::deschedule_task`: decrement
`active_task_count` (checked: underflow panics), increment
`handled_task_count`, then release every lock the task held. -/
def deschedule_task (env : TaskEnv) (s : MachineState) (w : UniqueWeight) :
    Option MachineState :=
  match s.active_task_count with
  | 0 => none
  | n + 1 =>
      match unlock_after_execution s.pages s.retryable_task_queue (env.attempts w) with
      | none => none
      | some (pages', retryable') =>
          some { s with
                   active_task_count := n
                   handled_task_count := s.handled_task_count + 1
                   pages := pages'
                   retryable_task_queue := retryable' }

/-- Rust `SchedulingStateMachine::clear_retryable_tasks`. -/
def clear_retryable_tasks (s : MachineState) : MachineState :=
  { s with retryable_task_queue := ∅ }

/-! ## Basic lemmas about the page table -/

theorem setPage_same (pages : PageId → PageInner) (p : PageId) (pg : PageInner) :
    setPage pages p pg p = pg := by
  simp [setPage]

theorem setPage_other (pages : PageId → PageInner) {p q : PageId} (pg : PageInner)
    (h : q ≠ p) : setPage pages p pg q = pages q := by
  simp [setPage, h]

theorem setPage_setPage (pages : PageId → PageInner) (p : PageId) (a b : PageInner) :
    setPage (setPage pages p a) p b = setPage pages p b := by
  funext q
  by_cases h : q = p <;> simp [setPage, h]

theorem setPage_self (pages : PageId → PageInner) (p : PageId) :
    setPage pages p (pages p) = pages := by
  funext q
  by_cases h : q = p <;> simp [setPage, h]

/-- Every page has a well-formed readonly count (`Readonly(count)` requires
`count ≥ 1`, spec §3). -/
def WfUsage (pages : PageId → PageInner) : Prop :=
  ∀ p c, (pages p).usage = Usage.Readonly c → 1 ≤ c

/-! ## Lemmas about `attempt_lock_for_execution` -/

theorem alfe_frame (w : UniqueWeight) (rb : Bool) :
    ∀ (L : List (PageId × RequestedUsage)) (pages : PageId → PageInner) (q : PageId),
      q ∉ attemptPages L →
      (attempt_lock_for_execution pages w L rb).1 q = pages q := by
  intro L
  induction L with
  | nil => intro pages q _; rfl
  | cons hd tl ih =>
      intro pages q hq
      obtain ⟨p, ru⟩ := hd
      have hqp : q ≠ p := by
        intro h; exact hq (by simp [attemptPages, h])
      have hqtl : q ∉ attemptPages tl := by
        intro h; exact hq (by simp [attemptPages] at h ⊢; exact Or.inr h)
      simp only [attempt_lock_for_execution]
      cases hst : attempt_lock_address w (pages p) ru with
      | Succeded u =>
          simp only [hst]
          cases rb with
          | true =>
              simp only [if_true]
              rw [ih _ q hqtl, setPage_other _ _ hqp]
          | false =>
              simp only [Bool.false_eq_true, if_false]
              rw [ih _ q hqtl]
      | Failed => simp [hst]

theorem alfe_maps (w : UniqueWeight) (rb : Bool) :
    ∀ (L : List (PageId × RequestedUsage)) (pages : PageId → PageInner) (q : PageId),
      ((attempt_lock_for_execution pages w L rb).1 q).writable_blocked_tasks
          = (pages q).writable_blocked_tasks ∧
      ((attempt_lock_for_execution pages w L rb).1 q).readonly_blocked_tasks
          = (pages q).readonly_blocked_tasks := by
  intro L
  induction L with
  | nil => intro pages q; exact ⟨rfl, rfl⟩
  | cons hd tl ih =>
      intro pages q
      obtain ⟨p, ru⟩ := hd
      simp only [attempt_lock_for_execution]
      cases hst : attempt_lock_address w (pages p) ru with
      | Succeded u =>
          simp only [hst]
          cases rb with
          | true =>
              simp only [if_true]
              constructor
              · rw [(ih _ q).1]
                by_cases hqp : q = p <;> simp [setPage, hqp]
              · rw [(ih _ q).2]
                by_cases hqp : q = p <;> simp [setPage, hqp]
          | false =>
              simp only [Bool.false_eq_true, if_false]
              exact ih _ q
      | Failed => simp [hst]

theorem alfe_retry_pages (w : UniqueWeight) :
    ∀ (L : List (PageId × RequestedUsage)) (pages : PageId → PageInner),
      (attempt_lock_for_execution pages w L false).1 = pages := by
  intro L
  induction L with
  | nil => intro pages; rfl
  | cons hd tl ih =>
      intro pages
      obtain ⟨p, ru⟩ := hd
      simp only [attempt_lock_for_execution]
      cases hst : attempt_lock_address w (pages p) ru with
      | Succeded u => simpa using ih pages
      | Failed => rfl

theorem alfe_count_le (w : UniqueWeight) (rb : Bool) :
    ∀ (L : List (PageId × RequestedUsage)) (pages : PageId → PageInner),
      (attempt_lock_for_execution pages w L rb).2.2 ≤ L.length := by
  intro L
  induction L with
  | nil => intro pages; simp [attempt_lock_for_execution]
  | cons hd tl ih =>
      intro pages
      obtain ⟨p, ru⟩ := hd
      simp only [attempt_lock_for_execution]
      cases hst : attempt_lock_address w (pages p) ru with
      | Succeded u =>
          simp only [List.length_cons]
          exact Nat.add_le_add_right (ih _) 1
      | Failed => simp

/-- On full success of the fresh path, every attempt was granted against the
page's value from before the call, and the page now carries the granted
usage (needs pairwise-distinct pages). -/
theorem alfe_success (w : UniqueWeight) :
    ∀ (L : List (PageId × RequestedUsage)) (pages : PageId → PageInner),
      (attemptPages L).Nodup →
      (attempt_lock_for_execution pages w L true).2.2 = L.length →
      ∀ pr ∈ L, ∃ u, attempt_lock_address w (pages pr.1) pr.2 = LockStatus.Succeded u ∧
        (attempt_lock_for_execution pages w L true).1 pr.1 = (pages pr.1).setUsage u := by
  intro L
  induction L with
  | nil => intro pages _ _ pr hpr; exact absurd hpr (List.not_mem_nil pr)
  | cons hd tl ih =>
      intro pages hnd hcount pr hpr
      obtain ⟨p, ru⟩ := hd
      have hnd' : (p :: attemptPages tl).Nodup := by
        simpa only [attemptPages, List.map_cons] using hnd
      have hpn : p ∉ attemptPages tl := (List.nodup_cons.mp hnd').1
      have hndtl : (attemptPages tl).Nodup := (List.nodup_cons.mp hnd').2
      simp only [attempt_lock_for_execution] at hcount ⊢
      cases hst : attempt_lock_address w (pages p) ru with
      | Succeded u =>
          simp only [hst, if_true] at hcount ⊢
          have hcount' :
              (attempt_lock_for_execution (setPage pages p ((pages p).setUsage u))
                w tl true).2.2 = tl.length := by
            simpa using hcount
          rcases List.mem_cons.mp hpr with hpr' | hpr'
          · subst hpr'
            refine ⟨u, hst, ?_⟩
            rw [alfe_frame w true tl _ p hpn, setPage_same]
          · have hq : pr.1 ∈ attemptPages tl := List.mem_map_of_mem Prod.fst hpr'
            have hqp : pr.1 ≠ p := fun h => hpn (h ▸ hq)
            obtain ⟨u', hgr, hres⟩ := ih _ hndtl hcount' pr hpr'
            rw [setPage_other _ _ hqp] at hgr hres
            exact ⟨u', hgr, hres⟩
      | Failed =>
          simp only [hst] at hcount
          exact absurd hcount (by simp)

/-- On full success of the retry path, the staged usages line up with the
attempts, each granted against the unchanged page table. -/
theorem alfe_retry_success (w : UniqueWeight) :
    ∀ (L : List (PageId × RequestedUsage)) (pages : PageId → PageInner),
      (attempt_lock_for_execution pages w L false).2.2 = L.length →
      List.Forall₂
        (fun (pr : PageId × RequestedUsage) (u : Usage) =>
          attempt_lock_address w (pages pr.1) pr.2 = LockStatus.Succeded u)
        L (attempt_lock_for_execution pages w L false).2.1 := by
  intro L
  induction L with
  | nil => intro pages _; exact List.Forall₂.nil
  | cons hd tl ih =>
      intro pages hcount
      obtain ⟨p, ru⟩ := hd
      simp only [attempt_lock_for_execution] at hcount ⊢
      cases hst : attempt_lock_address w (pages p) ru with
      | Succeded u =>
          simp only [hst] at hcount ⊢
          have hcount' : (attempt_lock_for_execution pages w tl false).2.2 = tl.length := by
            simpa using hcount
          exact List.Forall₂.cons hst (ih pages hcount')
      | Failed =>
          simp only [hst] at hcount
          exact absurd hcount (by simp)

/-! ## Lemmas about `unlock` and `unlockList` -/

/-- A granted lock can be unlocked right back to the page's previous usage
(needs the readonly-count well-formedness of the previous usage). -/
theorem unlock_grant {w : UniqueWeight} {pg : PageInner} {ru : RequestedUsage} {u : Usage}
    (h : attempt_lock_address w pg ru = LockStatus.Succeded u)
    (hwf : ∀ c, pg.usage = Usage.Readonly c → 1 ≤ c) :
    ∃ b, unlock ru u = some (pg.usage, b) := by
  unfold attempt_lock_address at h
  cases hup : pg.usage with
  | Unused =>
      rw [hup] at h
      cases ru with
      | Readonly =>
          simp only [Usage.renew] at h
          split at h
          · cases h; exact ⟨true, rfl⟩
          · simp at h
      | Writable =>
          simp only [Usage.renew] at h
          split at h
          · cases h; exact ⟨true, rfl⟩
          · simp at h
  | Readonly c =>
      have hc : 1 ≤ c := hwf c hup
      rw [hup] at h
      cases ru with
      | Readonly =>
          simp only at h
          split at h
          · cases h
            refine ⟨false, ?_⟩
            simp only [unlock]
            have h1 : ¬(c + 1 = 1) := by omega
            have h0 : ¬(c + 1 = 0) := by omega
            simp [h1, h0]
          · simp at h
      | Writable => simp at h
  | Writable =>
      rw [hup] at h
      cases ru <;> simp at h

theorem unlockList_maps :
    ∀ (L : List (PageId × RequestedUsage)) (pages pages' : PageId → PageInner),
      unlockList pages L = some pages' →
      ∀ q, (pages' q).writable_blocked_tasks = (pages q).writable_blocked_tasks ∧
        (pages' q).readonly_blocked_tasks = (pages q).readonly_blocked_tasks := by
  intro L
  induction L with
  | nil => intro pages pages' h q; cases h; exact ⟨rfl, rfl⟩
  | cons hd tl ih =>
      intro pages pages' h q
      obtain ⟨p, ru⟩ := hd
      simp only [unlockList] at h
      cases hu : unlock ru (pages p).usage with
      | none => rw [hu] at h; exact absurd h (by simp)
      | some r =>
          rw [hu] at h
          obtain ⟨u', b⟩ := r
          have := ih _ _ h q
          by_cases hqp : q = p
          · subst hqp
            simpa [setPage_same] using this
          · simpa [setPage_other _ _ hqp] using this

theorem unlockList_frame :
    ∀ (L : List (PageId × RequestedUsage)) (pages pages' : PageId → PageInner),
      unlockList pages L = some pages' →
      ∀ q, q ∉ attemptPages L → pages' q = pages q := by
  intro L
  induction L with
  | nil => intro pages pages' h q _; cases h; rfl
  | cons hd tl ih =>
      intro pages pages' h q hq
      obtain ⟨p, ru⟩ := hd
      have hqp : q ≠ p := by
        intro hh; exact hq (by simp [attemptPages, hh])
      have hqtl : q ∉ attemptPages tl := by
        intro hh; exact hq (by simp [attemptPages] at hh ⊢; exact Or.inr hh)
      simp only [unlockList] at h
      cases hu : unlock ru (pages p).usage with
      | none => rw [hu] at h; exact absurd h (by simp)
      | some r =>
          rw [hu] at h
          obtain ⟨u', b⟩ := r
          rw [ih _ _ h q hqtl, setPage_other _ _ hqp]

/-- `unlockList` commutes with an update of a page it does not touch. -/
theorem unlockList_setPage :
    ∀ (L : List (PageId × RequestedUsage)) (pages : PageId → PageInner)
      (q : PageId) (v : PageInner), q ∉ attemptPages L →
      unlockList (setPage pages q v) L =
        Option.map (fun pgs => setPage pgs q v) (unlockList pages L) := by
  intro L
  induction L with
  | nil => intro pages q v _; rfl
  | cons hd tl ih =>
      intro pages q v hq
      obtain ⟨p, ru⟩ := hd
      have hqp : p ≠ q := by
        intro hh; exact hq (by simp [attemptPages, hh])
      have hqtl : q ∉ attemptPages tl := by
        intro hh; exact hq (by simp [attemptPages] at hh ⊢; exact Or.inr hh)
      simp only [unlockList, setPage_other _ _ hqp]
      cases hu : unlock ru (pages p).usage with
      | none => rfl
      | some r =>
          obtain ⟨u', b⟩ := r
          have hswap :
              setPage (setPage pages q v) p ((pages p).setUsage u') =
                setPage (setPage pages p ((pages p).setUsage u')) q v := by
            funext x
            by_cases h1 : x = p
            · by_cases h2 : x = q
              · exact absurd (h1.symm.trans h2) hqp
              · simp [setPage, h1, h2, hqp, Ne.symm hqp]
            · by_cases h2 : x = q <;> simp [setPage, h1, h2, hqp, Ne.symm hqp]
          show unlockList (setPage (setPage pages q v) p ((pages p).setUsage u')) tl
              = Option.map (fun pgs => setPage pgs q v)
                  (unlockList (setPage pages p ((pages p).setUsage u')) tl)
          rw [hswap]
          exact ih _ q v hqtl

/-- Rolling back the committed prefix of a failed fresh locking pass restores
every page usage to its value from before the pass. -/
theorem alfe_fail_restore (w : UniqueWeight) :
    ∀ (L : List (PageId × RequestedUsage)) (pages : PageId → PageInner),
      (attemptPages L).Nodup → WfUsage pages →
      (attempt_lock_for_execution pages w L true).2.2 < L.length →
      unlockList (attempt_lock_for_execution pages w L true).1
          (L.take (attempt_lock_for_execution pages w L true).2.2) = some pages := by
  intro L
  induction L with
  | nil => intro pages _ _ h; simp [attempt_lock_for_execution] at h
  | cons hd tl ih =>
      intro pages hnd hwf hcount
      obtain ⟨p, ru⟩ := hd
      have hnd' : (p :: attemptPages tl).Nodup := by
        simpa only [attemptPages, List.map_cons] using hnd
      have hpn : p ∉ attemptPages tl := (List.nodup_cons.mp hnd').1
      have hndtl : (attemptPages tl).Nodup := (List.nodup_cons.mp hnd').2
      cases hst : attempt_lock_address w (pages p) ru with
      | Succeded u =>
          obtain ⟨b, hb⟩ := unlock_grant hst (fun c hc => hwf p c hc)
          have heq : attempt_lock_for_execution pages w ((p, ru) :: tl) true
              = ((attempt_lock_for_execution (setPage pages p ((pages p).setUsage u))
                    w tl true).1,
                 u :: (attempt_lock_for_execution (setPage pages p ((pages p).setUsage u))
                    w tl true).2.1,
                 (attempt_lock_for_execution (setPage pages p ((pages p).setUsage u))
                    w tl true).2.2 + 1) := by
            simp [attempt_lock_for_execution, hst]
          have hwf1 : WfUsage (setPage pages p ((pages p).setUsage u)) := by
            intro q c hq
            by_cases hqp : q = p
            · rw [hqp, setPage_same] at hq
              have hq' : u = Usage.Readonly c := hq
              rw [hq'] at hb
              by_contra hc0
              have hc0' : c = 0 := by omega
              rw [hc0'] at hb
              cases ru <;> simp [unlock] at hb
            · rw [setPage_other _ _ hqp] at hq
              exact hwf q c hq
          rw [heq] at hcount ⊢
          simp only [List.length_cons, Nat.add_lt_add_iff_right] at hcount
          have hres := ih (setPage pages p ((pages p).setUsage u)) hndtl hwf1 hcount
          have hpn' : p ∉ attemptPages
              (tl.take (attempt_lock_for_execution
                (setPage pages p ((pages p).setUsage u)) w tl true).2.2) := by
            intro hh
            exact hpn (by
              simp only [attemptPages] at hh ⊢
              exact List.mem_map.mpr (by
                obtain ⟨x, hx, hxx⟩ := List.mem_map.mp hh
                exact ⟨x, List.mem_of_mem_take hx, hxx⟩))
          have hfr : (attempt_lock_for_execution
              (setPage pages p ((pages p).setUsage u)) w tl true).1 p
                = (pages p).setUsage u := by
            rw [alfe_frame w true tl _ p hpn, setPage_same]
          simp only [List.take_succ_cons, unlockList, hfr,
            PageInner.setUsage_usage, hb]
          have hself : ((pages p).setUsage u).setUsage (pages p).usage = pages p := by
            cases hpg : pages p
            rfl
          rw [hself,
            unlockList_setPage _ _ p (pages p) hpn', hres]
          show some (setPage (setPage pages p ((pages p).setUsage u)) p (pages p))
              = some pages
          rw [setPage_setPage, setPage_self]
      | Failed =>
          have heq : attempt_lock_for_execution pages w ((p, ru) :: tl) true
              = (pages, [], 0) := by
            simp [attempt_lock_for_execution, hst]
          rw [heq]
          rfl

/-! ## Lemmas about the blocked-task maps and the heaviest-task queries -/

/-- The opposite requested usage (proof-layer helper). -/
def RequestedUsage.other : RequestedUsage → RequestedUsage
  | RequestedUsage.Readonly => RequestedUsage.Writable
  | RequestedUsage.Writable => RequestedUsage.Readonly

theorem insert_blocked_task_spec {pg pg' : PageInner} {w : UniqueWeight}
    {ru : RequestedUsage} (h : pg.insert_blocked_task w ru = some pg') :
    w ∉ pg.blocked_tasks ru ∧ pg'.usage = pg.usage ∧
      pg'.blocked_tasks ru = insert w (pg.blocked_tasks ru) ∧
      pg'.blocked_tasks ru.other = pg.blocked_tasks ru.other := by
  cases ru <;>
    · simp only [PageInner.insert_blocked_task] at h
      split at h
      · exact absurd h (by simp)
      · cases h
        simp_all [PageInner.blocked_tasks, RequestedUsage.other]

theorem remove_blocked_task_spec {pg pg' : PageInner} {w : UniqueWeight}
    {ru : RequestedUsage} (h : pg.remove_blocked_task ru w = some pg') :
    w ∈ pg.blocked_tasks ru ∧ pg'.usage = pg.usage ∧
      pg'.blocked_tasks ru = (pg.blocked_tasks ru).erase w ∧
      pg'.blocked_tasks ru.other = pg.blocked_tasks ru.other := by
  cases ru <;>
    · simp only [PageInner.remove_blocked_task] at h
      split at h
      · cases h
        simp_all [PageInner.blocked_tasks, RequestedUsage.other]
      · exact absurd h (by simp)

theorem heaviest_writing_mem {pg : PageInner} {x : UniqueWeight}
    (h : pg.heaviest_blocked_writing_task = some x) :
    x ∈ pg.writable_blocked_tasks := by
  unfold PageInner.heaviest_blocked_writing_task at h
  split at h
  · cases h; exact Finset.max'_mem _ _
  · exact absurd h (by simp)

theorem heaviest_readonly_mem {pg : PageInner} {x : UniqueWeight}
    (h : pg.heaviest_blocked_readonly_task = some x) :
    x ∈ pg.readonly_blocked_tasks := by
  unfold PageInner.heaviest_blocked_readonly_task at h
  split at h
  · cases h; exact Finset.max'_mem _ _
  · exact absurd h (by simp)

theorem heaviest_mem {pg : PageInner} {x : UniqueWeight}
    (h : pg.heaviest_blocked_task = some x) :
    x ∈ pg.writable_blocked_tasks ∨ x ∈ pg.readonly_blocked_tasks := by
  unfold PageInner.heaviest_blocked_task heavier_task at h
  cases hw : pg.heaviest_blocked_writing_task with
  | none =>
      rw [hw] at h
      exact Or.inr (heaviest_readonly_mem h)
  | some a =>
      cases hr : pg.heaviest_blocked_readonly_task with
      | none =>
          rw [hw, hr] at h
          cases h
          exact Or.inl (heaviest_writing_mem hw)
      | some b =>
          rw [hw, hr] at h
          cases h
          rcases max_choice a b with hm | hm <;> rw [hm]
          · exact Or.inl (heaviest_writing_mem hw)
          · exact Or.inr (heaviest_readonly_mem hr)

theorem heaviest_writing_bound {pg : PageInner} {x : UniqueWeight}
    (hx : x ∈ pg.writable_blocked_tasks) :
    ∃ m, pg.heaviest_blocked_writing_task = some m ∧ x ≤ m := by
  unfold PageInner.heaviest_blocked_writing_task
  split
  case isTrue h => exact ⟨_, rfl, Finset.le_max' _ _ hx⟩
  case isFalse h => exact absurd ⟨x, hx⟩ h

theorem heaviest_readonly_bound {pg : PageInner} {x : UniqueWeight}
    (hx : x ∈ pg.readonly_blocked_tasks) :
    ∃ m, pg.heaviest_blocked_readonly_task = some m ∧ x ≤ m := by
  unfold PageInner.heaviest_blocked_readonly_task
  split
  case isTrue h => exact ⟨_, rfl, Finset.le_max' _ _ hx⟩
  case isFalse h => exact absurd ⟨x, hx⟩ h

theorem heaviest_bound {pg : PageInner} {x : UniqueWeight}
    (hx : x ∈ pg.writable_blocked_tasks ∨ x ∈ pg.readonly_blocked_tasks) :
    ∃ m, pg.heaviest_blocked_task = some m ∧ x ≤ m := by
  unfold PageInner.heaviest_blocked_task heavier_task
  rcases hx with hx | hx
  · obtain ⟨m, hm, hle⟩ := heaviest_writing_bound hx
    rw [hm]
    cases hr : pg.heaviest_blocked_readonly_task with
    | none => exact ⟨m, rfl, hle⟩
    | some b => exact ⟨max m b, rfl, le_trans hle (le_max_left m b)⟩
  · obtain ⟨m, hm, hle⟩ := heaviest_readonly_bound hx
    rw [hm]
    cases hw : pg.heaviest_blocked_writing_task with
    | none => exact ⟨m, rfl, hle⟩
    | some a => exact ⟨max a m, rfl, le_trans hle (le_max_right a m)⟩

/-! ## Lemmas about `register_blocked_task_into_pages` -/

theorem register_frame {w : UniqueWeight} :
    ∀ (L : List (PageId × RequestedUsage)) (pages pages' : PageId → PageInner),
      register_blocked_task_into_pages pages w L = some pages' →
      ∀ q, q ∉ attemptPages L → pages' q = pages q := by
  intro L
  induction L with
  | nil => intro pages pages' h q _; cases h; rfl
  | cons hd tl ih =>
      intro pages pages' h q hq
      obtain ⟨p, ru⟩ := hd
      have hqp : q ≠ p := by
        intro hh; exact hq (by simp [attemptPages, hh])
      have hqtl : q ∉ attemptPages tl := by
        intro hh; exact hq (by simp [attemptPages] at hh ⊢; exact Or.inr hh)
      simp only [register_blocked_task_into_pages] at h
      cases hi : (pages p).insert_blocked_task w ru with
      | none => rw [hi] at h; exact absurd h (by simp)
      | some pg' =>
          rw [hi] at h
          rw [ih _ _ h q hqtl, setPage_other _ _ hqp]

theorem register_char {w : UniqueWeight} :
    ∀ (L : List (PageId × RequestedUsage)) (pages pages' : PageId → PageInner),
      (attemptPages L).Nodup →
      register_blocked_task_into_pages pages w L = some pages' →
      ∀ pr ∈ L,
        w ∉ (pages pr.1).blocked_tasks pr.2 ∧
        (pages' pr.1).usage = (pages pr.1).usage ∧
        (pages' pr.1).blocked_tasks pr.2 = insert w ((pages pr.1).blocked_tasks pr.2) ∧
        (pages' pr.1).blocked_tasks pr.2.other = (pages pr.1).blocked_tasks pr.2.other := by
  intro L
  induction L with
  | nil => intro pages pages' _ h pr hpr; exact absurd hpr (List.not_mem_nil pr)
  | cons hd tl ih =>
      intro pages pages' hnd h pr hpr
      obtain ⟨p, ru⟩ := hd
      have hnd' : (p :: attemptPages tl).Nodup := by
        simpa only [attemptPages, List.map_cons] using hnd
      have hpn : p ∉ attemptPages tl := (List.nodup_cons.mp hnd').1
      have hndtl : (attemptPages tl).Nodup := (List.nodup_cons.mp hnd').2
      simp only [register_blocked_task_into_pages] at h
      cases hi : (pages p).insert_blocked_task w ru with
      | none => rw [hi] at h; exact absurd h (by simp)
      | some pg' =>
          rw [hi] at h
          obtain ⟨hni, hus, hbt, hot⟩ := insert_blocked_task_spec hi
          rcases List.mem_cons.mp hpr with hpr' | hpr'
          · subst hpr'
            have hfin : pages' p = pg' := by
              rw [register_frame tl _ _ h p hpn, setPage_same]
            rw [hfin]
            exact ⟨hni, hus, hbt, hot⟩
          · have hq : pr.1 ∈ attemptPages tl := List.mem_map_of_mem Prod.fst hpr'
            have hqp : pr.1 ≠ p := fun hh => hpn (hh ▸ hq)
            have := ih _ _ hndtl h pr hpr'
            rw [setPage_other _ _ hqp] at this
            exact this

/-! ## Lemmas about `commitAndRemove` -/

theorem commitAndRemove_frame {w : UniqueWeight} :
    ∀ (LZ : List ((PageId × RequestedUsage) × Usage)) (pages pages' : PageId → PageInner),
      commitAndRemove pages w LZ = some pages' →
      ∀ q, q ∉ LZ.map (fun x => x.1.1) → pages' q = pages q := by
  intro LZ
  induction LZ with
  | nil => intro pages pages' h q _; cases h; rfl
  | cons hd tl ih =>
      intro pages pages' h q hq
      obtain ⟨⟨p, ru⟩, u⟩ := hd
      have hqp : q ≠ p := by
        intro hh; exact hq (by simp [hh])
      have hqtl : q ∉ tl.map (fun x => x.1.1) := by
        intro hh; exact hq (by simp at hh ⊢; exact Or.inr hh)
      simp only [commitAndRemove] at h
      cases hr : ((pages p).setUsage u).remove_blocked_task ru w with
      | none => rw [hr] at h; exact absurd h (by simp)
      | some pg' =>
          rw [hr] at h
          rw [ih _ _ h q hqtl, setPage_other _ _ hqp]

theorem commitAndRemove_char {w : UniqueWeight} :
    ∀ (LZ : List ((PageId × RequestedUsage) × Usage)) (pages pages' : PageId → PageInner),
      (LZ.map (fun x => x.1.1)).Nodup →
      commitAndRemove pages w LZ = some pages' →
      ∀ e ∈ LZ,
        w ∈ (pages e.1.1).blocked_tasks e.1.2 ∧
        (pages' e.1.1).usage = e.2 ∧
        (pages' e.1.1).blocked_tasks e.1.2 = ((pages e.1.1).blocked_tasks e.1.2).erase w ∧
        (pages' e.1.1).blocked_tasks e.1.2.other = (pages e.1.1).blocked_tasks e.1.2.other := by
  intro LZ
  induction LZ with
  | nil => intro pages pages' _ h e he; exact absurd he (List.not_mem_nil e)
  | cons hd tl ih =>
      intro pages pages' hnd h e he
      obtain ⟨⟨p, ru⟩, u⟩ := hd
      have hnd' : (p :: tl.map (fun x => x.1.1)).Nodup := by
        simpa only [List.map_cons] using hnd
      have hpn : p ∉ tl.map (fun x => x.1.1) := (List.nodup_cons.mp hnd').1
      have hndtl : (tl.map (fun x => x.1.1)).Nodup := (List.nodup_cons.mp hnd').2
      simp only [commitAndRemove] at h
      cases hr : ((pages p).setUsage u).remove_blocked_task ru w with
      | none => rw [hr] at h; exact absurd h (by simp)
      | some pg' =>
          rw [hr] at h
          obtain ⟨hmem, hus, hbt, hot⟩ := remove_blocked_task_spec hr
          rcases List.mem_cons.mp he with he' | he'
          · subst he'
            have hfin : pages' p = pg' := by
              rw [commitAndRemove_frame tl _ _ h p hpn, setPage_same]
            rw [hfin]
            refine ⟨?_, ?_, ?_, ?_⟩
            · revert hmem
              cases ru <;> simp [PageInner.blocked_tasks]
            · rw [hus]; rfl
            · rw [hbt]
              cases ru <;> simp [PageInner.blocked_tasks]
            · rw [hot]
              cases ru <;> simp [PageInner.blocked_tasks, RequestedUsage.other]
          · have hq : e.1.1 ∈ tl.map (fun x => x.1.1) :=
              List.mem_map.mpr ⟨e, he', rfl⟩
            have hqp : e.1.1 ≠ p := fun hh => hpn (hh ▸ hq)
            have := ih _ _ hndtl h e he'
            rw [setPage_other _ _ hqp] at this
            exact this

/-! ## Lemmas about `wakeReadonly` -/

theorem wakeReadonly_mono {x : UniqueWeight} :
    ∀ (L : List (PageId × RequestedUsage)) (pages : PageId → PageInner)
      (retryable : Finset UniqueWeight),
      x ∈ retryable → x ∈ wakeReadonly pages retryable L := by
  intro L
  induction L with
  | nil => intro pages retryable hx; exact hx
  | cons hd tl ih =>
      intro pages retryable hx
      obtain ⟨p, ru⟩ := hd
      cases ru with
      | Writable => exact ih pages retryable hx
      | Readonly =>
          simp only [wakeReadonly]
          cases hh : (pages p).heaviest_blocked_readonly_task with
          | none => exact ih pages retryable hx
          | some hw => exact ih pages _ (Finset.mem_insert_of_mem hx)

theorem wakeReadonly_mem {p : PageId} {hw : UniqueWeight} :
    ∀ (L : List (PageId × RequestedUsage)) (pages : PageId → PageInner)
      (retryable : Finset UniqueWeight),
      (p, RequestedUsage.Readonly) ∈ L →
      (pages p).heaviest_blocked_readonly_task = some hw →
      hw ∈ wakeReadonly pages retryable L := by
  intro L
  induction L with
  | nil => intro pages retryable hmem _; exact absurd hmem (List.not_mem_nil _)
  | cons hd tl ih =>
      intro pages retryable hmem hh
      obtain ⟨q, ru⟩ := hd
      rcases List.mem_cons.mp hmem with he | he
      · cases he
        simp only [wakeReadonly, hh]
        exact wakeReadonly_mono tl pages _ (Finset.mem_insert_self hw retryable)
      · cases ru with
        | Writable => exact ih pages retryable he hh
        | Readonly =>
            simp only [wakeReadonly]
            cases hh' : (pages q).heaviest_blocked_readonly_task with
            | none => exact ih pages retryable he hh
            | some hw' => exact ih pages _ he hh

theorem wakeReadonly_sub {x : UniqueWeight} :
    ∀ (L : List (PageId × RequestedUsage)) (pages : PageId → PageInner)
      (retryable : Finset UniqueWeight),
      x ∈ wakeReadonly pages retryable L →
      x ∈ retryable ∨ ∃ p, (p, RequestedUsage.Readonly) ∈ L ∧
        x ∈ (pages p).readonly_blocked_tasks := by
  intro L
  induction L with
  | nil => intro pages retryable hx; exact Or.inl hx
  | cons hd tl ih =>
      intro pages retryable hx
      obtain ⟨p, ru⟩ := hd
      cases ru with
      | Writable =>
          rcases ih pages retryable hx with h | ⟨q, hq, hmem⟩
          · exact Or.inl h
          · exact Or.inr ⟨q, List.mem_cons_of_mem _ hq, hmem⟩
      | Readonly =>
          simp only [wakeReadonly] at hx
          cases hh : (pages p).heaviest_blocked_readonly_task with
          | none =>
              rw [hh] at hx
              rcases ih pages retryable hx with h | ⟨q, hq, hmem⟩
              · exact Or.inl h
              · exact Or.inr ⟨q, List.mem_cons_of_mem _ hq, hmem⟩
          | some hw =>
              rw [hh] at hx
              rcases ih pages _ hx with h | ⟨q, hq, hmem⟩
              · rcases Finset.mem_insert.mp h with h' | h'
                · exact Or.inr ⟨p, List.mem_cons_self _ _, h' ▸ heaviest_readonly_mem hh⟩
                · exact Or.inl h'
              · exact Or.inr ⟨q, List.mem_cons_of_mem _ hq, hmem⟩

/-! ## Lemmas about `unlock_after_execution` -/

theorem uae_maps :
    ∀ (L : List (PageId × RequestedUsage)) (pages pages' : PageId → PageInner)
      (q q' : Finset UniqueWeight),
      unlock_after_execution pages q L = some (pages', q') →
      ∀ x, (pages' x).writable_blocked_tasks = (pages x).writable_blocked_tasks ∧
        (pages' x).readonly_blocked_tasks = (pages x).readonly_blocked_tasks := by
  intro L
  induction L with
  | nil => intro pages pages' q q' h x; cases h; exact ⟨rfl, rfl⟩
  | cons hd tl ih =>
      intro pages pages' q q' h x
      obtain ⟨p, ru⟩ := hd
      simp only [unlock_after_execution] at h
      cases hu : unlock ru (pages p).usage with
      | none => rw [hu] at h; exact absurd h (by simp)
      | some r =>
          rw [hu] at h
          obtain ⟨u', b⟩ := r
          have := ih _ _ _ _ h x
          by_cases hxp : x = p
          · rw [hxp] at this ⊢
            simpa [setPage_same] using this
          · simpa [setPage_other _ _ hxp] using this

theorem uae_frame :
    ∀ (L : List (PageId × RequestedUsage)) (pages pages' : PageId → PageInner)
      (q q' : Finset UniqueWeight),
      unlock_after_execution pages q L = some (pages', q') →
      ∀ x, x ∉ attemptPages L → pages' x = pages x := by
  intro L
  induction L with
  | nil => intro pages pages' q q' h x _; cases h; rfl
  | cons hd tl ih =>
      intro pages pages' q q' h x hx
      obtain ⟨p, ru⟩ := hd
      have hxp : x ≠ p := by
        intro hh; exact hx (by simp [attemptPages, hh])
      have hxtl : x ∉ attemptPages tl := by
        intro hh; exact hx (by simp [attemptPages] at hh ⊢; exact Or.inr hh)
      simp only [unlock_after_execution] at h
      cases hu : unlock ru (pages p).usage with
      | none => rw [hu] at h; exact absurd h (by simp)
      | some r =>
          rw [hu] at h
          obtain ⟨u', b⟩ := r
          rw [ih _ _ _ _ h x hxtl, setPage_other _ _ hxp]

theorem uae_pages :
    ∀ (L : List (PageId × RequestedUsage)) (pages pages' : PageId → PageInner)
      (q q' : Finset UniqueWeight),
      (attemptPages L).Nodup →
      unlock_after_execution pages q L = some (pages', q') →
      ∀ pr ∈ L, ∃ u' b, unlock pr.2 (pages pr.1).usage = some (u', b) ∧
        pages' pr.1 = (pages pr.1).setUsage u' := by
  intro L
  induction L with
  | nil => intro pages pages' q q' _ h pr hpr; exact absurd hpr (List.not_mem_nil pr)
  | cons hd tl ih =>
      intro pages pages' q q' hnd h pr hpr
      obtain ⟨p, ru⟩ := hd
      have hnd' : (p :: attemptPages tl).Nodup := by
        simpa only [attemptPages, List.map_cons] using hnd
      have hpn : p ∉ attemptPages tl := (List.nodup_cons.mp hnd').1
      have hndtl : (attemptPages tl).Nodup := (List.nodup_cons.mp hnd').2
      simp only [unlock_after_execution] at h
      cases hu : unlock ru (pages p).usage with
      | none => rw [hu] at h; exact absurd h (by simp)
      | some r =>
          rw [hu] at h
          obtain ⟨u', b⟩ := r
          rcases List.mem_cons.mp hpr with hpr' | hpr'
          · subst hpr'
            refine ⟨u', b, hu, ?_⟩
            rw [uae_frame tl _ _ _ _ h p hpn, setPage_same]
          · have hq : pr.1 ∈ attemptPages tl := List.mem_map_of_mem Prod.fst hpr'
            have hqp : pr.1 ≠ p := fun hh => hpn (hh ▸ hq)
            obtain ⟨u'', b', hu'', hres⟩ := ih _ _ _ _ hndtl h pr hpr'
            rw [setPage_other _ _ hqp] at hu'' hres
            exact ⟨u'', b', hu'', hres⟩

theorem uae_queue_mono {x : UniqueWeight} :
    ∀ (L : List (PageId × RequestedUsage)) (pages pages' : PageId → PageInner)
      (q q' : Finset UniqueWeight),
      unlock_after_execution pages q L = some (pages', q') →
      x ∈ q → x ∈ q' := by
  intro L
  induction L with
  | nil => intro pages pages' q q' h hx; cases h; exact hx
  | cons hd tl ih =>
      intro pages pages' q q' h hx
      obtain ⟨p, ru⟩ := hd
      simp only [unlock_after_execution] at h
      cases hu : unlock ru (pages p).usage with
      | none => rw [hu] at h; exact absurd h (by simp)
      | some r =>
          rw [hu] at h
          obtain ⟨u', b⟩ := r
          cases b with
          | false => exact ih _ _ _ _ h hx
          | true =>
              simp only [if_true] at h
              cases hh : ((setPage pages p ((pages p).setUsage u')) p).heaviest_blocked_task with
              | none =>
                  rw [hh] at h
                  exact ih _ _ _ _ h hx
              | some hw =>
                  rw [hh] at h
                  exact ih _ _ _ _ h (Finset.mem_insert_of_mem hx)

theorem uae_queue_mem {x : UniqueWeight} :
    ∀ (L : List (PageId × RequestedUsage)) (pages pages' : PageId → PageInner)
      (q q' : Finset UniqueWeight),
      unlock_after_execution pages q L = some (pages', q') →
      x ∈ q' → x ∈ q ∨ ∃ p', x ∈ (pages p').writable_blocked_tasks ∨
        x ∈ (pages p').readonly_blocked_tasks := by
  intro L
  induction L with
  | nil => intro pages pages' q q' h hx; cases h; exact Or.inl hx
  | cons hd tl ih =>
      intro pages pages' q q' h hx
      obtain ⟨p, ru⟩ := hd
      simp only [unlock_after_execution] at h
      cases hu : unlock ru (pages p).usage with
      | none => rw [hu] at h; exact absurd h (by simp)
      | some r =>
          rw [hu] at h
          obtain ⟨u', b⟩ := r
          have hmaps : ∀ p', ((setPage pages p ((pages p).setUsage u')) p').writable_blocked_tasks
                = (pages p').writable_blocked_tasks ∧
              ((setPage pages p ((pages p).setUsage u')) p').readonly_blocked_tasks
                = (pages p').readonly_blocked_tasks := by
            intro p'
            by_cases hpp : p' = p
            · rw [hpp, setPage_same]; exact ⟨rfl, rfl⟩
            · rw [setPage_other _ _ hpp]; exact ⟨rfl, rfl⟩
          cases b with
          | false =>
              rcases ih _ _ _ _ h hx with hq | ⟨p', hp'⟩
              · exact Or.inl hq
              · refine Or.inr ⟨p', ?_⟩
                rw [← (hmaps p').1, ← (hmaps p').2]
                exact hp'
          | true =>
              simp only [if_true] at h
              cases hh : ((setPage pages p ((pages p).setUsage u')) p).heaviest_blocked_task with
              | none =>
                  rw [hh] at h
                  rcases ih _ _ _ _ h hx with hq | ⟨p', hp'⟩
                  · exact Or.inl hq
                  · refine Or.inr ⟨p', ?_⟩
                    rw [← (hmaps p').1, ← (hmaps p').2]
                    exact hp'
              | some hw =>
                  rw [hh] at h
                  rcases ih _ _ _ _ h hx with hq | ⟨p', hp'⟩
                  · rcases Finset.mem_insert.mp hq with hq' | hq'
                    · subst hq'
                      refine Or.inr ⟨p, ?_⟩
                      have := heaviest_mem hh
                      rw [(hmaps p).1, (hmaps p).2] at this
                      exact this
                    · exact Or.inl hq'
                  · refine Or.inr ⟨p', ?_⟩
                    rw [← (hmaps p').1, ← (hmaps p').2]
                    exact hp'

/-! ## Inversion lemmas for the public operations -/

/-- Inversion of a successful `attempt_lock_address`: the guard held and the
granted usage has the expected shape. -/
theorem attempt_lock_address_inv {w : UniqueWeight} {pg : PageInner}
    {ru : RequestedUsage} {u : Usage}
    (h : attempt_lock_address w pg ru = LockStatus.Succeded u) :
    no_heavier_other_tasks w pg ru = true ∧
    ((pg.usage = Usage.Unused ∧ u = Usage.renew ru) ∨
     (∃ c, pg.usage = Usage.Readonly c ∧ ru = RequestedUsage.Readonly ∧
        u = Usage.Readonly (c + 1))) := by
  unfold attempt_lock_address at h
  cases hup : pg.usage with
  | Unused =>
      rw [hup] at h
      simp only at h
      split at h
      case isTrue hg => cases h; exact ⟨hg, Or.inl ⟨rfl, rfl⟩⟩
      case isFalse hg => simp at h
  | Readonly c =>
      rw [hup] at h
      cases ru with
      | Readonly =>
          simp only at h
          split at h
          case isTrue hg => cases h; exact ⟨hg, Or.inr ⟨c, rfl, rfl, rfl⟩⟩
          case isFalse hg => simp at h
      | Writable => simp at h
  | Writable =>
      rw [hup] at h
      cases ru <;> simp at h

theorem try_lock_counters {env : TaskEnv} {s s' : MachineState} {src : TaskSource}
    {w : UniqueWeight} {ok : Bool}
    (h : try_lock_for_task env s src w = some (s', ok)) :
    s'.active_task_count = s.active_task_count ∧
    s'.handled_task_count = s.handled_task_count ∧
    s'.reschedule_count = s.reschedule_count ∧
    s'.rescheduled_task_count = s.rescheduled_task_count ∧
    s'.total_task_count = s.total_task_count := by
  simp only [try_lock_for_task] at h
  split at h
  · split at h
    · split at h
      · exact absurd h (by simp)
      · split at h
        · exact absurd h (by simp)
        · cases h; exact ⟨rfl, rfl, rfl, rfl, rfl⟩
    · cases h; exact ⟨rfl, rfl, rfl, rfl, rfl⟩
  · split at h
    · cases h; exact ⟨rfl, rfl, rfl, rfl, rfl⟩
    · split at h
      · exact absurd h (by simp)
      · cases h; exact ⟨rfl, rfl, rfl, rfl, rfl⟩

theorem try_lock_runnable_success {env : TaskEnv} {s s₁ : MachineState}
    {w : UniqueWeight}
    (h : try_lock_for_task env s TaskSource.Runnable w = some (s₁, true)) :
    (attempt_lock_for_execution s.pages w (env.attempts w) true).2.2
        = (env.attempts w).length ∧
    s₁ = { s with pages := (attempt_lock_for_execution s.pages w (env.attempts w) true).1 } := by
  by_cases hlt : (attempt_lock_for_execution s.pages w (env.attempts w) true).2.2
      < (env.attempts w).length
  · exfalso
    cases hrb : rollback_locking
        (attempt_lock_for_execution s.pages w (env.attempts w) true).1 (env.attempts w)
        (attempt_lock_for_execution s.pages w (env.attempts w) true).2.2 with
    | none => simp [try_lock_for_task, if_pos hlt, hrb] at h
    | some pages2 =>
        cases hreg : register_blocked_task_into_pages pages2 w (env.attempts w) with
        | none => simp [try_lock_for_task, if_pos hlt, hrb, hreg] at h
        | some pages3 => simp [try_lock_for_task, if_pos hlt, hrb, hreg] at h
  · simp only [try_lock_for_task, if_neg hlt] at h
    refine ⟨Nat.le_antisymm (alfe_count_le w true _ _) (Nat.le_of_not_lt hlt), ?_⟩
    cases h
    rfl

theorem try_lock_runnable_failure {env : TaskEnv} {s s₁ : MachineState}
    {w : UniqueWeight}
    (h : try_lock_for_task env s TaskSource.Runnable w = some (s₁, false)) :
    ∃ pages2 pages3,
      (attempt_lock_for_execution s.pages w (env.attempts w) true).2.2
          < (env.attempts w).length ∧
      rollback_locking (attempt_lock_for_execution s.pages w (env.attempts w) true).1
          (env.attempts w)
          (attempt_lock_for_execution s.pages w (env.attempts w) true).2.2 = some pages2 ∧
      register_blocked_task_into_pages pages2 w (env.attempts w) = some pages3 ∧
      s₁ = { s with pages := pages3 } := by
  by_cases hlt : (attempt_lock_for_execution s.pages w (env.attempts w) true).2.2
      < (env.attempts w).length
  · cases hrb : rollback_locking
        (attempt_lock_for_execution s.pages w (env.attempts w) true).1 (env.attempts w)
        (attempt_lock_for_execution s.pages w (env.attempts w) true).2.2 with
    | none => exfalso; simp [try_lock_for_task, if_pos hlt, hrb] at h
    | some pages2 =>
        cases hreg : register_blocked_task_into_pages pages2 w (env.attempts w) with
        | none => exfalso; simp [try_lock_for_task, if_pos hlt, hrb, hreg] at h
        | some pages3 =>
            simp only [try_lock_for_task, if_pos hlt, hrb, hreg] at h
            refine ⟨pages2, pages3, ?_, ?_, ?_, ?_⟩
            · exact hlt
            · rfl
            · exact hreg
            · cases h; rfl
  · exfalso
    simp only [try_lock_for_task, if_neg hlt] at h
    simp at h

theorem try_lock_retryable_failure {env : TaskEnv} {s s₁ : MachineState}
    {w : UniqueWeight}
    (h : try_lock_for_task env s TaskSource.Retryable w = some (s₁, false)) :
    s₁ = s ∧
    (attempt_lock_for_execution s.pages w (env.attempts w) false).2.2
        < (env.attempts w).length := by
  by_cases hlt : (attempt_lock_for_execution s.pages w (env.attempts w) false).2.2
      < (env.attempts w).length
  · simp only [try_lock_for_task, if_pos hlt] at h
    cases h
    exact ⟨rfl, hlt⟩
  · exfalso
    cases hcr : commitAndRemove
        (attempt_lock_for_execution s.pages w (env.attempts w) false).1 w
        ((env.attempts w).zip
          (attempt_lock_for_execution s.pages w (env.attempts w) false).2.1) with
    | none => simp [try_lock_for_task, if_neg hlt, hcr] at h
    | some pages2 => simp [try_lock_for_task, if_neg hlt, hcr] at h

theorem try_lock_retryable_success {env : TaskEnv} {s s₁ : MachineState}
    {w : UniqueWeight}
    (h : try_lock_for_task env s TaskSource.Retryable w = some (s₁, true)) :
    ∃ pages2,
      (attempt_lock_for_execution s.pages w (env.attempts w) false).2.2
          = (env.attempts w).length ∧
      commitAndRemove s.pages w
          ((env.attempts w).zip
            (attempt_lock_for_execution s.pages w (env.attempts w) false).2.1)
          = some pages2 ∧
      s₁ = { s with
               pages := pages2
               retryable_task_queue :=
                 wakeReadonly pages2 s.retryable_task_queue (env.attempts w) } := by
  by_cases hlt : (attempt_lock_for_execution s.pages w (env.attempts w) false).2.2
      < (env.attempts w).length
  · exfalso
    simp [try_lock_for_task, if_pos hlt] at h
  · cases hcr : commitAndRemove
        (attempt_lock_for_execution s.pages w (env.attempts w) false).1 w
        ((env.attempts w).zip
          (attempt_lock_for_execution s.pages w (env.attempts w) false).2.1) with
    | none => exfalso; simp [try_lock_for_task, if_neg hlt, hcr] at h
    | some pages2 =>
        have hcr' := hcr
        rw [alfe_retry_pages w (env.attempts w) s.pages] at hcr'
        refine ⟨pages2,
          Nat.le_antisymm (alfe_count_le w false _ _) (Nat.le_of_not_lt hlt), hcr', ?_⟩
        simp only [try_lock_for_task, if_neg hlt, hcr] at h
        cases h
        rfl

theorem schedule_task_inv {env : TaskEnv} {s s' : MachineState} {w : UniqueWeight}
    {ok : Bool} (h : schedule_task env s w = some (s', ok)) :
    ∃ s₁, try_lock_for_task env s TaskSource.Runnable w = some (s₁, ok) ∧
      s' = { s₁ with total_task_count := s₁.total_task_count + 1
                     active_task_count := s₁.active_task_count + 1 } := by
  unfold schedule_task at h
  cases htl : try_lock_for_task env s TaskSource.Runnable w with
  | none => rw [htl] at h; exact absurd h (by simp)
  | some p =>
      obtain ⟨s₁, ok₁⟩ := p
      rw [htl] at h
      injection h with h1
      cases h1
      exact ⟨s₁, rfl, rfl⟩

theorem schedule_retryable_task_inv {env : TaskEnv} {s s' : MachineState}
    {r : Option UniqueWeight} (h : schedule_retryable_task env s = some (s', r)) :
    (s.retryable_task_queue = ∅ ∧ s' = s ∧ r = none) ∨
    ∃ (hne : s.retryable_task_queue.Nonempty) (s₁ : MachineState),
      (try_lock_for_task env
          { s with retryable_task_queue :=
              s.retryable_task_queue.erase (s.retryable_task_queue.max' hne) }
          TaskSource.Retryable (s.retryable_task_queue.max' hne) = some (s₁, true) ∧
        r = some (s.retryable_task_queue.max' hne) ∧
        s' = { s₁ with reschedule_count := s₁.reschedule_count + 1
                       rescheduled_task_count := s₁.rescheduled_task_count + 1 }) ∨
      (try_lock_for_task env
          { s with retryable_task_queue :=
              s.retryable_task_queue.erase (s.retryable_task_queue.max' hne) }
          TaskSource.Retryable (s.retryable_task_queue.max' hne) = some (s₁, false) ∧
        r = none ∧
        s' = { s₁ with reschedule_count := s₁.reschedule_count + 1 }) := by
  simp only [schedule_retryable_task] at h
  split at h
  case isTrue hne =>
    refine Or.inr ⟨hne, ?_⟩
    cases htl : try_lock_for_task env
        { s with retryable_task_queue :=
            s.retryable_task_queue.erase (s.retryable_task_queue.max' hne) }
        TaskSource.Retryable (s.retryable_task_queue.max' hne) with
    | none => rw [htl] at h; exact absurd h (by simp)
    | some p =>
        obtain ⟨s₁, ok₁⟩ := p
        rw [htl] at h
        refine ⟨s₁, ?_⟩
        cases ok₁ with
        | true =>
            injection h with h1
            cases h1
            exact Or.inl ⟨rfl, rfl, rfl⟩
        | false =>
            injection h with h1
            cases h1
            exact Or.inr ⟨rfl, rfl, rfl⟩
  case isFalse hne =>
    injection h with h1
    cases h1
    exact Or.inl ⟨Finset.not_nonempty_iff_eq_empty.mp hne, rfl, rfl⟩

theorem deschedule_task_inv {env : TaskEnv} {s s' : MachineState} {w : UniqueWeight}
    (h : deschedule_task env s w = some s') :
    ∃ n pages' retryable',
      s.active_task_count = n + 1 ∧
      unlock_after_execution s.pages s.retryable_task_queue (env.attempts w)
          = some (pages', retryable') ∧
      s' = { s with active_task_count := n
                    handled_task_count := s.handled_task_count + 1
                    pages := pages'
                    retryable_task_queue := retryable' } := by
  unfold deschedule_task at h
  cases hn : s.active_task_count with
  | zero => rw [hn] at h; exact absurd h (by simp)
  | succ n =>
      rw [hn] at h
      cases hu : unlock_after_execution s.pages s.retryable_task_queue (env.attempts w) with
      | none => rw [hu] at h; exact absurd h (by simp)
      | some pr =>
          rw [hu] at h
          obtain ⟨pages', retryable'⟩ := pr
          cases h
          exact ⟨n, pages', retryable', rfl, rfl, rfl⟩

/-! ## Claim C2 -/

/-- C2: whenever `attempt_lock_address` grants a lock to a task of unique
weight `w` on a page, either no strictly heavier task is blocked on that page
at all, or the request is `Readonly` and the heaviest blocked *writer* (hence
every blocked writer) is strictly lighter than `w`, so every strictly heavier
blocked task is a readonly waiter. -/
theorem C2_grant_blocks_no_heavier {w : UniqueWeight} {pg : PageInner}
    {ru : RequestedUsage} {u : Usage}
    (h : attempt_lock_address w pg ru = LockStatus.Succeded u) :
    ((∀ x ∈ pg.writable_blocked_tasks, x ≤ w) ∧
     (∀ x ∈ pg.readonly_blocked_tasks, x ≤ w)) ∨
    (ru = RequestedUsage.Readonly ∧ ∀ x ∈ pg.writable_blocked_tasks, x < w) := by
  have hg := (attempt_lock_address_inv h).1
  unfold no_heavier_other_tasks at hg
  rcases Bool.or_eq_true_iff.mp hg with h1 | h2
  · left
    cases hbt : pg.heaviest_blocked_task with
    | none =>
        constructor
        · intro x hx
          obtain ⟨m, hm, _⟩ := heaviest_bound (Or.inl hx)
          rw [hbt] at hm
          exact absurd hm (by simp)
        · intro x hx
          obtain ⟨m, hm, _⟩ := heaviest_bound (Or.inr hx)
          rw [hbt] at hm
          exact absurd hm (by simp)
    | some e =>
        rw [hbt] at h1
        have he : e ≤ w := of_decide_eq_true h1
        constructor
        · intro x hx
          obtain ⟨m, hm, hxm⟩ := heaviest_bound (Or.inl hx)
          rw [hbt] at hm
          cases hm
          exact le_trans hxm he
        · intro x hx
          obtain ⟨m, hm, hxm⟩ := heaviest_bound (Or.inr hx)
          rw [hbt] at hm
          cases hm
          exact le_trans hxm he
  · right
    obtain ⟨ha, hb⟩ := Bool.and_eq_true_iff.mp h2
    cases ru with
    | Writable => simp at ha
    | Readonly =>
        refine ⟨rfl, ?_⟩
        intro x hx
        obtain ⟨m, hm, hxm⟩ := heaviest_writing_bound hx
        rw [hm] at hb
        have : m < w := of_decide_eq_true hb
        exact lt_of_le_of_lt hxm this

/-! ## Claim C9 -/

/-- C9: `unlock` decrements a readonly count, frees the page when the last
holder leaves (reporting "now unused"), and panics (`none`) exactly on the
mismatched combinations: writable request against a readonly page, readonly
request against a writable page, or any request against an unused page.
The hypothesis `1 ≤ c` is the spec's data-model invariant for
`Readonly(count)`. -/
theorem C9_unlock_cases (c : Nat) (hc : 1 ≤ c) :
    (c = 1 → unlock RequestedUsage.Readonly (Usage.Readonly c)
        = some (Usage.Unused, true)) ∧
    (1 < c → unlock RequestedUsage.Readonly (Usage.Readonly c)
        = some (Usage.Readonly (c - 1), false)) ∧
    unlock RequestedUsage.Writable Usage.Writable = some (Usage.Unused, true) ∧
    unlock RequestedUsage.Writable (Usage.Readonly c) = none ∧
    unlock RequestedUsage.Readonly Usage.Writable = none ∧
    unlock RequestedUsage.Readonly Usage.Unused = none ∧
    unlock RequestedUsage.Writable Usage.Unused = none := by
  refine ⟨?_, ?_, rfl, rfl, rfl, rfl, rfl⟩
  · intro h1
    subst h1
    rfl
  · intro h2
    have h1 : ¬(c = 1) := by omega
    have h0 : ¬(c = 0) := by omega
    simp [unlock, h1, h0]

/-- Witness for C9 at a concrete count. -/
theorem C9_unlock_cases_witness :
    (1 : Nat) ≤ 2 ∧ unlock RequestedUsage.Readonly (Usage.Readonly 2)
      = some (Usage.Readonly 1, false) :=
  ⟨by decide, (C9_unlock_cases 2 (by decide)).2.1 (by decide)⟩

/-! ## Claim C6 -/

/-- A page with a writer of weight 5 parked in its writable-blocked map and
nothing else. -/
def pageWriterFiveParked : PageInner :=
  PageInner.mk Usage.Unused {5} ∅

/-- A page with a writer of weight 10 parked in its writable-blocked map. -/
def pageWriterTenParked : PageInner :=
  PageInner.mk Usage.Unused {10} ∅

/-- C6 counterexample: with writer W of unique weight 5 parked in page X's
writable-blocked map (and X otherwise free), a reader R of unique weight 10
attempting `Readonly` access is *granted*, not rejected — `R` outranks the
parked writer, so the claim's expected rejection does not happen. -/
theorem C6_counterexample :
    (5 : UniqueWeight) ∈ pageWriterFiveParked.writable_blocked_tasks ∧
    attempt_lock_address 10 pageWriterFiveParked RequestedUsage.Readonly
      = LockStatus.Succeded (Usage.Readonly 1) ∧
    attempt_lock_address 10 pageWriterFiveParked RequestedUsage.Readonly
      ≠ LockStatus.Failed := by
  refine ⟨by decide, by decide, ?_⟩
  intro hcontra
  exact absurd (by decide : attempt_lock_address 10 pageWriterFiveParked
    RequestedUsage.Readonly = LockStatus.Succeded (Usage.Readonly 1))
    (by rw [hcontra]; simp)

/-- C6 amended: with a single writer of weight `ww` parked on an otherwise
free page, a reader of weight `r` is granted exactly when it outweighs the
parked writer (`ww ≤ r`), and rejected when the parked writer is strictly
heavier.  In the claim's concrete numbers the reader (10) is granted over the
parked writer (5); the rejection happens in the mirrored case. -/
theorem C6_amended_reader_vs_parked_writer (r ww : UniqueWeight) :
    attempt_lock_address r (PageInner.mk Usage.Unused {ww} ∅) RequestedUsage.Readonly
      = (if ww ≤ r then LockStatus.Succeded (Usage.Readonly 1)
         else LockStatus.Failed) := by
  have h1 : (PageInner.mk Usage.Unused {ww} ∅).heaviest_blocked_writing_task
      = some ww := by
    unfold PageInner.heaviest_blocked_writing_task
    split
    case isTrue hh => exact congrArg some (Finset.max'_singleton ww)
    case isFalse hh => exact absurd (Finset.singleton_nonempty ww) hh
  have h2 : (PageInner.mk Usage.Unused {ww} ∅).heaviest_blocked_readonly_task
      = none := by
    unfold PageInner.heaviest_blocked_readonly_task
    split
    case isTrue hh => exact absurd hh Finset.not_nonempty_empty
    case isFalse hh => rfl
  have h3 : no_heavier_other_tasks r (PageInner.mk Usage.Unused {ww} ∅)
      RequestedUsage.Readonly = (decide (r ≥ ww) || decide (r > ww)) := by
    unfold no_heavier_other_tasks PageInner.heaviest_blocked_task heavier_task
    rw [h1, h2]
    rfl
  show (if no_heavier_other_tasks r (PageInner.mk Usage.Unused {ww} ∅)
          RequestedUsage.Readonly
        then LockStatus.Succeded (Usage.renew RequestedUsage.Readonly)
        else LockStatus.Failed) = _
  rw [h3]
  by_cases hle : ww ≤ r
  · have hg : (decide (r ≥ ww) || decide (r > ww)) = true := by
      simp [ge_iff_le, hle]
    rw [if_pos hg, if_pos hle]
    rfl
  · have hg1 : ¬(r ≥ ww) := hle
    have hg2 : ¬(r > ww) := fun hgt => hle (le_of_lt hgt)
    have hg : (decide (r ≥ ww) || decide (r > ww)) = false := by
      simp [hg1, hg2]
    rw [if_neg (by simp [hg]), if_neg hle]

/-! ## Claim C8 -/

/-- C8: a `schedule_retryable_task` call that pops a task increments
`reschedule_count` by exactly one whether or not locking succeeds, and
increments `rescheduled_task_count` by exactly one iff locking fully succeeds
(`r = some _` is the Rust `Some` return).  On an empty queue the call returns
`None` (`r = none`) and changes nothing.  A popped task whose locking fails is
not re-inserted into the retryable queue. -/
theorem C8_schedule_retryable_counters {env : TaskEnv} {s s' : MachineState}
    {r : Option UniqueWeight} (h : schedule_retryable_task env s = some (s', r)) :
    (s.retryable_task_queue = ∅ → s' = s ∧ r = none) ∧
    (∀ hne : s.retryable_task_queue.Nonempty,
      s'.reschedule_count = s.reschedule_count + 1 ∧
      (r.isSome → s'.rescheduled_task_count = s.rescheduled_task_count + 1) ∧
      (r = none → s'.rescheduled_task_count = s.rescheduled_task_count ∧
        s.retryable_task_queue.max' hne ∉ s'.retryable_task_queue)) := by
  have hinv := schedule_retryable_task_inv h
  constructor
  · intro hemp
    rcases hinv with ⟨_, hs, hr⟩ | ⟨hne, _, _⟩
    · exact ⟨hs, hr⟩
    · exact absurd hemp (Finset.nonempty_iff_ne_empty.mp hne)
  · intro hne
    rcases hinv with ⟨hemp, _, _⟩ | ⟨hne', s₁, hcase⟩
    · exact absurd hemp (Finset.nonempty_iff_ne_empty.mp hne)
    · rcases hcase with ⟨htl, hr, hs'⟩ | ⟨htl, hr, hs'⟩
      · obtain ⟨hac, hh, hrc, hrtc, htc⟩ := try_lock_counters htl
        subst hs'
        refine ⟨by simp [hrc], fun _ => by simp [hrtc], ?_⟩
        intro hcontra
        rw [hr] at hcontra
        exact absurd hcontra (by simp)
      · obtain ⟨hs₁, _⟩ := try_lock_retryable_failure htl
        obtain ⟨hac, hh, hrc, hrtc, htc⟩ := try_lock_counters htl
        subst hs'
        refine ⟨by simp [hrc], ?_, ?_⟩
        · intro hsome
          rw [hr] at hsome
          exact absurd hsome (by simp)
        · intro _
          refine ⟨by simp [hrtc], ?_⟩
          show s.retryable_task_queue.max' hne ∉ s₁.retryable_task_queue
          rw [hs₁]
          exact Finset.not_mem_erase _ _

/-! ## Claim C7 -/

/-- C7: when `schedule_retryable_task` fully succeeds in locking the popped
task `w'`, then for every `Readonly` lock attempt of `w'` on a page `p`, if
`p`'s readonly-blocked map is non-empty after `w'`'s own entry was removed
(that is, in the returned state), its maximum-priority task is in the
retryable queue when the call returns. -/
theorem C7_retry_success_wakes_readers {env : TaskEnv} {s s' : MachineState}
    {w' : UniqueWeight} (h : schedule_retryable_task env s = some (s', some w')) :
    ∀ p, (p, RequestedUsage.Readonly) ∈ env.attempts w' →
      ∀ hw, (s'.pages p).heaviest_blocked_readonly_task = some hw →
        hw ∈ s'.retryable_task_queue := by
  intro p hp hw hhw
  rcases schedule_retryable_task_inv h with ⟨_, _, hr⟩ | ⟨hne, s₁, hcase⟩
  · exact absurd hr (by simp)
  · rcases hcase with ⟨htl, hr, hs'⟩ | ⟨_, hr, _⟩
    · have hwmax : s.retryable_task_queue.max' hne = w' := by
        injection hr with hh
        exact hh.symm
      subst hwmax
      obtain ⟨pages2, _, hcr, hs₁⟩ := try_lock_retryable_success htl
      subst hs₁
      subst hs'
      exact wakeReadonly_mem (env.attempts _) pages2 _ hp hhw
    · exact absurd hr (by simp)

/-! ## Claim C10 -/

/-- C10: a fully successful `schedule_task` call mutates only the usage
fields of the pages in the task's lock-attempt list plus `total_task_count`
and `active_task_count`: every page's two blocked-task maps are unchanged (in
particular a task still registered as blocked from an earlier failure stays
registered), pages outside the attempt list are untouched, and the retryable
queue and the other counters are unchanged. -/
theorem C10_schedule_success_frame {env : TaskEnv} {s s' : MachineState}
    {w : UniqueWeight} (h : schedule_task env s w = some (s', true)) :
    s'.retryable_task_queue = s.retryable_task_queue ∧
    (∀ p, (s'.pages p).writable_blocked_tasks = (s.pages p).writable_blocked_tasks ∧
      (s'.pages p).readonly_blocked_tasks = (s.pages p).readonly_blocked_tasks) ∧
    (∀ p, p ∉ attemptPages (env.attempts w) → s'.pages p = s.pages p) ∧
    s'.total_task_count = s.total_task_count + 1 ∧
    s'.active_task_count = s.active_task_count + 1 ∧
    s'.handled_task_count = s.handled_task_count ∧
    s'.reschedule_count = s.reschedule_count ∧
    s'.rescheduled_task_count = s.rescheduled_task_count := by
  obtain ⟨s₁, htl, hs'⟩ := schedule_task_inv h
  obtain ⟨hlen, hs₁⟩ := try_lock_runnable_success htl
  subst hs'
  subst hs₁
  refine ⟨rfl, ?_, ?_, rfl, rfl, rfl, rfl, rfl⟩
  · intro p
    exact alfe_maps w true (env.attempts w) s.pages p
  · intro p hp
    exact alfe_frame w true (env.attempts w) s.pages p hp

/-! ## Claim C3 -/

/-- C3: if `schedule_task` (the fresh/`Runnable` path) returns `None` because
a lock attempt failed, then on return every page in the task's lock-attempt
list has its usage restored to its value from immediately before the call,
and the task is registered in the wait map matching its requested usage on
every page of its lock-attempt list.  Preconditions: the attempts reference
pairwise-distinct pages, and the readonly counts are well-formed (spec
invariant `Readonly(count) ⇒ count ≥ 1`). -/
theorem C3_failed_schedule_rolls_back_and_registers {env : TaskEnv}
    {s s' : MachineState} {w : UniqueWeight}
    (hnd : (attemptPages (env.attempts w)).Nodup)
    (hwf : WfUsage s.pages)
    (h : schedule_task env s w = some (s', false)) :
    ∀ pr ∈ env.attempts w,
      (s'.pages pr.1).usage = (s.pages pr.1).usage ∧
      w ∈ (s'.pages pr.1).blocked_tasks pr.2 := by
  obtain ⟨s₁, htl, hs'⟩ := schedule_task_inv h
  obtain ⟨pages2, pages3, hlt, hrb, hreg, hs₁⟩ := try_lock_runnable_failure htl
  have hrestore := alfe_fail_restore w (env.attempts w) s.pages hnd hwf hlt
  unfold rollback_locking at hrb
  rw [hrestore] at hrb
  have hpages2 : pages2 = s.pages := by
    injection hrb with hh
    exact hh.symm
  subst hpages2
  intro pr hpr
  obtain ⟨hni, hus, hbt, _⟩ := register_char (env.attempts w) _ _ hnd hreg pr hpr
  have hsp : s'.pages = pages3 := by
    rw [hs', hs₁]
  rw [hsp]
  exact ⟨hus, by rw [hbt]; exact Finset.mem_insert_self w _⟩

/-! ## Claim C4 -/

/-- States obtainable from a fresh machine by any sequence of completed
(panic-free) `schedule_task`, `schedule_retryable_task` and `deschedule_task`
calls.  A call whose Rust original would panic (e.g. descheduling when
`active_task_count` is zero) returns `none` and produces no state, exactly as
the aborted process leaves no "after" state. -/
inductive ReachM (env : TaskEnv) : MachineState → Prop where
  | init : ReachM env initialMachine
  | schedule {s s' : MachineState} {w : UniqueWeight} {ok : Bool} :
      ReachM env s → schedule_task env s w = some (s', ok) → ReachM env s'
  | retry {s s' : MachineState} {r : Option UniqueWeight} :
      ReachM env s → schedule_retryable_task env s = some (s', r) → ReachM env s'
  | deschedule {s s' : MachineState} {w : UniqueWeight} :
      ReachM env s → deschedule_task env s w = some s' → ReachM env s'

/-- C4: after any sequence of `schedule_task`, `schedule_retryable_task` and
`deschedule_task` calls from a fresh machine, `total_task_count` equals
`active_task_count` plus `handled_task_count`.  (This holds for every
completed sequence, with or without the claim's precondition that each
`deschedule_task` is applied to a previously-scheduled task.) -/
theorem C4_total_eq_active_plus_handled (env : TaskEnv) (s : MachineState)
    (h : ReachM env s) :
    s.total_task_count = s.active_task_count + s.handled_task_count := by
  induction h with
  | init => rfl
  | @schedule t t' w ok hr hstep ih =>
      obtain ⟨s₁, htl, hs'⟩ := schedule_task_inv hstep
      obtain ⟨hac, hh, _, _, htc⟩ := try_lock_counters htl
      subst hs'
      show s₁.total_task_count + 1 = (s₁.active_task_count + 1) + s₁.handled_task_count
      rw [htc, hac, hh]
      omega
  | @retry t t' r hr hstep ih =>
      rcases schedule_retryable_task_inv hstep with ⟨_, hs, _⟩ | ⟨hne, s₁, hcase⟩
      · rw [hs]; exact ih
      · rcases hcase with ⟨htl, _, hs'⟩ | ⟨htl, _, hs'⟩ <;>
          · obtain ⟨hac, hh, _, _, htc⟩ := try_lock_counters htl
            have hac' : s₁.active_task_count = t.active_task_count := hac
            have hh' : s₁.handled_task_count = t.handled_task_count := hh
            have htc' : s₁.total_task_count = t.total_task_count := htc
            subst hs'
            show s₁.total_task_count = s₁.active_task_count + s₁.handled_task_count
            rw [hac', hh', htc']
            exact ih
  | @deschedule t t' w hr hstep ih =>
      obtain ⟨n, pages', retryable', hn, _, hs'⟩ := deschedule_task_inv hstep
      subst hs'
      show t.total_task_count = n + (t.handled_task_count + 1)
      rw [hn] at ih
      omega

/-! ## Claim C1: ghost holder tracking and the usage coupling invariant -/

/-- Generic list fact: if the first components of a pair list are distinct,
two members with the same first component are equal. -/
theorem nodup_fst_eq {α β : Type _} :
    ∀ {L : List (α × β)}, (L.map Prod.fst).Nodup →
      ∀ {a b : α × β}, a ∈ L → b ∈ L → a.1 = b.1 → a = b := by
  intro L
  induction L with
  | nil => intro _ a b ha _ _; exact absurd ha (List.not_mem_nil a)
  | cons hd tl ih =>
      intro hnd a b ha hb hab
      have hnd' : (hd.1 :: tl.map Prod.fst).Nodup := by
        simpa only [List.map_cons] using hnd
      have hh : hd.1 ∉ tl.map Prod.fst := (List.nodup_cons.mp hnd').1
      have htl : (tl.map Prod.fst).Nodup := (List.nodup_cons.mp hnd').2
      rcases List.mem_cons.mp ha with ha' | ha' <;>
        rcases List.mem_cons.mp hb with hb' | hb'
      · rw [ha', hb']
      · subst ha'
        exact absurd (hab ▸ List.mem_map_of_mem Prod.fst hb') hh
      · subst hb'
        exact absurd (hab ▸ List.mem_map_of_mem Prod.fst ha') hh
      · exact ih htl ha' hb' hab

/-- Under the per-task distinct-pages invariant, a task has at most one
requested usage per page. -/
theorem attempts_unique_usage {env : TaskEnv} (hwf : env.Wf)
    {w : UniqueWeight} {p : PageId} {ru₁ ru₂ : RequestedUsage}
    (h1 : (p, ru₁) ∈ env.attempts w) (h2 : (p, ru₂) ∈ env.attempts w) :
    ru₁ = ru₂ := by
  have := nodup_fst_eq (hwf w) h1 h2 rfl
  exact congrArg Prod.snd this

/-- The currently locked tasks holding a `Writable` lock on page `p`
(derived holder set: a locked task holds exactly the locks of its
lock-attempt list). -/
def wHolders (env : TaskEnv) (locked : Finset UniqueWeight) (p : PageId) :
    Finset UniqueWeight :=
  locked.filter (fun w => (p, RequestedUsage.Writable) ∈ env.attempts w)

/-- The currently locked tasks holding a `Readonly` lock on page `p`. -/
def rHolders (env : TaskEnv) (locked : Finset UniqueWeight) (p : PageId) :
    Finset UniqueWeight :=
  locked.filter (fun w => (p, RequestedUsage.Readonly) ∈ env.attempts w)

theorem mem_wHolders {env : TaskEnv} {locked : Finset UniqueWeight}
    {p : PageId} {w : UniqueWeight} :
    w ∈ wHolders env locked p ↔
      w ∈ locked ∧ (p, RequestedUsage.Writable) ∈ env.attempts w :=
  Finset.mem_filter

theorem mem_rHolders {env : TaskEnv} {locked : Finset UniqueWeight}
    {p : PageId} {w : UniqueWeight} :
    w ∈ rHolders env locked p ↔
      w ∈ locked ∧ (p, RequestedUsage.Readonly) ∈ env.attempts w :=
  Finset.mem_filter

theorem wHolders_insert (env : TaskEnv) (locked : Finset UniqueWeight)
    (p : PageId) (w : UniqueWeight) :
    wHolders env (insert w locked) p =
      if (p, RequestedUsage.Writable) ∈ env.attempts w
      then insert w (wHolders env locked p) else wHolders env locked p :=
  Finset.filter_insert _ _ _

theorem rHolders_insert (env : TaskEnv) (locked : Finset UniqueWeight)
    (p : PageId) (w : UniqueWeight) :
    rHolders env (insert w locked) p =
      if (p, RequestedUsage.Readonly) ∈ env.attempts w
      then insert w (rHolders env locked p) else rHolders env locked p :=
  Finset.filter_insert _ _ _

theorem wHolders_erase (env : TaskEnv) (locked : Finset UniqueWeight)
    (p : PageId) (w : UniqueWeight) :
    wHolders env (locked.erase w) p = (wHolders env locked p).erase w := by
  unfold wHolders
  ext x
  simp only [Finset.mem_filter, Finset.mem_erase]
  tauto

theorem rHolders_erase (env : TaskEnv) (locked : Finset UniqueWeight)
    (p : PageId) (w : UniqueWeight) :
    rHolders env (locked.erase w) p = (rHolders env locked p).erase w := by
  unfold rHolders
  ext x
  simp only [Finset.mem_filter, Finset.mem_erase]
  tauto

/-- Coupling between a page's usage and the derived holder sets: `Unused`
pages have no holders, a `Readonly(c)` page has no writable holder, at most
`c` readonly holders and `c ≥ 1`, and a `Writable` page has exactly one
writable holder and no readonly holder.  (An inequality rather than an
equality for readonly counts: re-submitting an already-holding reader via
`schedule_task` legitimately raises the count above the number of distinct
holders.) -/
def usageCoupled (env : TaskEnv) (locked : Finset UniqueWeight) (p : PageId) :
    Usage → Prop
  | Usage.Unused => rHolders env locked p = ∅ ∧ wHolders env locked p = ∅
  | Usage.Readonly c =>
      wHolders env locked p = ∅ ∧ (rHolders env locked p).card ≤ c ∧ 1 ≤ c
  | Usage.Writable =>
      rHolders env locked p = ∅ ∧ ∃ w0, wHolders env locked p = {w0}

/-- Machine state plus the ghost set of currently locked tasks: the tasks a
scheduling call has granted all their locks to, and that have not been
descheduled since. -/
structure GState where
  m : MachineState
  locked : Finset UniqueWeight

/-- Fresh machine, nothing locked. -/
def initialG : GState := ⟨initialMachine, ∅⟩

/-- Reachability with ghost lock tracking.  The side condition on
`deschedule` is the API contract (spec §2/§4.2: `deschedule_task` is called
by the owner after the task has executed, i.e. only for a task whose
scheduling call succeeded and that has not been descheduled yet).
`schedule_task` and `schedule_retryable_task` steps are unrestricted. -/
inductive Reach (env : TaskEnv) : GState → Prop where
  | init : Reach env initialG
  | schedule {gs : GState} {s' : MachineState} {w : UniqueWeight} {ok : Bool} :
      Reach env gs → schedule_task env gs.m w = some (s', ok) →
      Reach env ⟨s', if ok then insert w gs.locked else gs.locked⟩
  | retry {gs : GState} {s' : MachineState} {r : Option UniqueWeight} :
      Reach env gs → schedule_retryable_task env gs.m = some (s', r) →
      Reach env ⟨s', match r with
                    | some w => insert w gs.locked
                    | none => gs.locked⟩
  | deschedule {gs : GState} {s' : MachineState} {w : UniqueWeight} :
      Reach env gs → w ∈ gs.locked → deschedule_task env gs.m w = some s' →
      Reach env ⟨s', gs.locked.erase w⟩
  | clear {gs : GState} :
      Reach env gs → Reach env ⟨clear_retryable_tasks gs.m, gs.locked⟩

/-- The coupling invariant, on every page. -/
def Coupled (env : TaskEnv) (gs : GState) : Prop :=
  ∀ p, usageCoupled env gs.locked p (gs.m.pages p).usage

theorem coupled_initial (env : TaskEnv) : Coupled env initialG := by
  intro p
  show usageCoupled env ∅ p Usage.Unused
  constructor <;> rfl

/-- Pages with no attempt from `w` keep their coupling when `w` is locked. -/
theorem coupling_frame_insert {env : TaskEnv} {locked : Finset UniqueWeight}
    {p : PageId} {w : UniqueWeight} {u : Usage}
    (h : usageCoupled env locked p u)
    (hnp : ∀ ru, (p, ru) ∉ env.attempts w) :
    usageCoupled env (insert w locked) p u := by
  have hw : wHolders env (insert w locked) p = wHolders env locked p := by
    rw [wHolders_insert, if_neg (hnp RequestedUsage.Writable)]
  have hr : rHolders env (insert w locked) p = rHolders env locked p := by
    rw [rHolders_insert, if_neg (hnp RequestedUsage.Readonly)]
  cases u with
  | Unused => exact ⟨by rw [hr]; exact h.1, by rw [hw]; exact h.2⟩
  | Readonly c => exact ⟨by rw [hw]; exact h.1, by rw [hr]; exact h.2.1, h.2.2⟩
  | Writable =>
      obtain ⟨h1, w0, h2⟩ := h
      exact ⟨by rw [hr]; exact h1, w0, by rw [hw]; exact h2⟩

/-- Pages with no attempt from `w` keep their coupling when `w` is released. -/
theorem coupling_frame_erase {env : TaskEnv} {locked : Finset UniqueWeight}
    {p : PageId} {w : UniqueWeight} {u : Usage}
    (h : usageCoupled env locked p u)
    (hnp : ∀ ru, (p, ru) ∉ env.attempts w) :
    usageCoupled env (locked.erase w) p u := by
  have hw : wHolders env (locked.erase w) p = wHolders env locked p := by
    rw [wHolders_erase]
    refine Finset.erase_eq_of_not_mem ?_
    intro hmem
    exact hnp RequestedUsage.Writable (mem_wHolders.mp hmem).2
  have hr : rHolders env (locked.erase w) p = rHolders env locked p := by
    rw [rHolders_erase]
    refine Finset.erase_eq_of_not_mem ?_
    intro hmem
    exact hnp RequestedUsage.Readonly (mem_rHolders.mp hmem).2
  cases u with
  | Unused => exact ⟨by rw [hr]; exact h.1, by rw [hw]; exact h.2⟩
  | Readonly c => exact ⟨by rw [hw]; exact h.1, by rw [hr]; exact h.2.1, h.2.2⟩
  | Writable =>
      obtain ⟨h1, w0, h2⟩ := h
      exact ⟨by rw [hr]; exact h1, w0, by rw [hw]; exact h2⟩

/-- A granted lock attempt preserves the coupling once `w` is counted as a
holder. -/
theorem grant_coupling {env : TaskEnv} {locked : Finset UniqueWeight}
    {p : PageId} {w : UniqueWeight} {ru : RequestedUsage} {u : Usage}
    {pg : PageInner}
    (hc : usageCoupled env locked p pg.usage)
    (hg : attempt_lock_address w pg ru = LockStatus.Succeded u)
    (hmem : (p, ru) ∈ env.attempts w)
    (hother : (p, RequestedUsage.other ru) ∉ env.attempts w) :
    usageCoupled env (insert w locked) p u := by
  rcases (attempt_lock_address_inv hg).2 with ⟨hup, hu⟩ | ⟨c, hup, hru, hu⟩
  · rw [hup] at hc
    obtain ⟨hr0, hw0⟩ := hc
    cases ru with
    | Readonly =>
        subst hu
        show usageCoupled env (insert w locked) p (Usage.Readonly 1)
        refine ⟨?_, ?_, le_refl 1⟩
        · rw [wHolders_insert,
            if_neg (by exact hother : (p, RequestedUsage.Writable) ∉ env.attempts w),
            hw0]
        · rw [rHolders_insert, if_pos hmem, hr0]
          simp
    | Writable =>
        subst hu
        show usageCoupled env (insert w locked) p Usage.Writable
        refine ⟨?_, w, ?_⟩
        · rw [rHolders_insert,
            if_neg (by exact hother : (p, RequestedUsage.Readonly) ∉ env.attempts w),
            hr0]
        · rw [wHolders_insert, if_pos hmem, hw0]
          simp
  · subst hru
    subst hu
    rw [hup] at hc
    obtain ⟨hw0, hcard, hc1⟩ := hc
    show usageCoupled env (insert w locked) p (Usage.Readonly (c + 1))
    refine ⟨?_, ?_, by omega⟩
    · rw [wHolders_insert,
        if_neg (by exact hother : (p, RequestedUsage.Writable) ∉ env.attempts w),
        hw0]
    · rw [rHolders_insert, if_pos hmem]
      calc (insert w (rHolders env locked p)).card
          ≤ (rHolders env locked p).card + 1 := Finset.card_insert_le _ _
        _ ≤ c + 1 := by omega

/-- Releasing one granted lock attempt preserves the coupling once `w` is no
longer counted as a holder. -/
theorem unlock_coupling {env : TaskEnv} {locked : Finset UniqueWeight}
    {p : PageId} {w : UniqueWeight} {ru : RequestedUsage} {u₀ u' : Usage}
    {b : Bool}
    (hc : usageCoupled env locked p u₀)
    (hul : unlock ru u₀ = some (u', b))
    (hw : w ∈ locked)
    (hmem : (p, ru) ∈ env.attempts w)
    (hother : (p, RequestedUsage.other ru) ∉ env.attempts w) :
    usageCoupled env (locked.erase w) p u' := by
  cases u₀ with
  | Unused => cases ru <;> exact absurd hul (by simp [unlock])
  | Writable =>
      cases ru with
      | Readonly => exact absurd hul (by simp [unlock])
      | Writable =>
          have hu' : u' = Usage.Unused := by
            simp only [unlock] at hul
            cases hul
            rfl
          subst hu'
          obtain ⟨hr0, w0, hwH⟩ := hc
          have hww0 : w = w0 := by
            have : w ∈ wHolders env locked p := mem_wHolders.mpr ⟨hw, hmem⟩
            rw [hwH] at this
            exact Finset.mem_singleton.mp this
          subst hww0
          constructor
          · rw [rHolders_erase, hr0]
            simp
          · rw [wHolders_erase, hwH]
            simp
  | Readonly c =>
      cases ru with
      | Writable => exact absurd hul (by simp [unlock])
      | Readonly =>
          obtain ⟨hwH, hcard, hc1⟩ := hc
          have hwr : w ∈ rHolders env locked p := mem_rHolders.mpr ⟨hw, hmem⟩
          by_cases h1 : c = 1
          · subst h1
            have hu' : u' = Usage.Unused := by
              simp only [unlock, if_pos rfl] at hul
              cases hul
              rfl
            subst hu'
            constructor
            · rw [rHolders_erase]
              have hsing : rHolders env locked p = {w} := by
                refine Finset.eq_singleton_iff_unique_mem.mpr ⟨hwr, ?_⟩
                intro x hx
                exact Finset.card_le_one.mp hcard x hx w hwr
              rw [hsing]
              simp
            · rw [wHolders_erase, hwH]
              simp
          · have h0 : ¬(c = 0) := by omega
            have hu' : u' = Usage.Readonly (c - 1) := by
              simp only [unlock, if_neg h1, if_neg h0] at hul
              cases hul
              rfl
            subst hu'
            refine ⟨?_, ?_, by omega⟩
            · rw [wHolders_erase, hwH]
              simp
            · rw [rHolders_erase, Finset.card_erase_of_mem hwr]
              omega

theorem other_ne (ru : RequestedUsage) : RequestedUsage.other ru ≠ ru := by
  cases ru <;> decide

theorem forall₂_zip_mem {R : (PageId × RequestedUsage) → Usage → Prop}
    {L : List (PageId × RequestedUsage)} {st : List Usage}
    (h : List.Forall₂ R L st) :
    ∀ {pr}, pr ∈ L → ∃ u, (pr, u) ∈ L.zip st ∧ R pr u := by
  induction h with
  | nil => intro pr hpr; exact absurd hpr (List.not_mem_nil _)
  | cons hR hF ih =>
      intro pr hpr
      rcases List.mem_cons.mp hpr with h' | h'
      · subst h'
        exact ⟨_, List.mem_cons_self _ _, hR⟩
      · obtain ⟨u, hu, hRu⟩ := ih h'
        exact ⟨u, List.mem_cons_of_mem _ hu, hRu⟩

theorem zip_fst_pages_mem {L : List (PageId × RequestedUsage)} {st : List Usage}
    {x : PageId} (h : x ∈ (L.zip st).map (fun e => e.1.1)) :
    x ∈ attemptPages L := by
  obtain ⟨e, he, hee⟩ := List.mem_map.mp h
  have he' : (e.1, e.2) ∈ L.zip st := by rw [Prod.mk.eta]; exact he
  rw [← hee]
  exact List.mem_map_of_mem Prod.fst (List.of_mem_zip he').1

theorem zip_fst_nodup :
    ∀ (L : List (PageId × RequestedUsage)) (st : List Usage),
      (attemptPages L).Nodup → ((L.zip st).map (fun x => x.1.1)).Nodup := by
  intro L
  induction L with
  | nil => intro st _; simp
  | cons hd tl ih =>
      intro st hnd
      cases st with
      | nil => simp
      | cons u st' =>
          have hnd' : (hd.1 :: attemptPages tl).Nodup := by
            simpa only [attemptPages, List.map_cons] using hnd
          rw [List.zip_cons_cons, List.map_cons, List.nodup_cons]
          constructor
          · intro hmem
            exact (List.nodup_cons.mp hnd').1 (zip_fst_pages_mem hmem)
          · exact ih st' (List.nodup_cons.mp hnd').2

/-- The coupling invariant holds in every reachable state. -/
theorem reach_coupled (env : TaskEnv) (hwf : env.Wf) :
    ∀ {gs : GState}, Reach env gs → Coupled env gs := by
  intro gs h
  induction h with
  | init => exact coupled_initial env
  | @schedule gs s' w ok hr hstep ih =>
      obtain ⟨s₁, htl, hs'⟩ := schedule_task_inv hstep
      cases ok with
      | false =>
          obtain ⟨pages2, pages3, hlt, hrb, hreg, hs₁⟩ := try_lock_runnable_failure htl
          have hwfu : WfUsage gs.m.pages := by
            intro p c hp
            have := ih p
            rw [hp] at this
            exact this.2.2
          have hrestore := alfe_fail_restore w (env.attempts w) gs.m.pages (hwf w) hwfu hlt
          unfold rollback_locking at hrb
          rw [hrestore] at hrb
          have hpages2 : pages2 = gs.m.pages := by
            injection hrb with hh
            exact hh.symm
          subst hpages2
          intro p
          show usageCoupled env gs.locked p ((s'.pages p).usage)
          have hsp : s'.pages = pages3 := by rw [hs', hs₁]
          rw [hsp]
          by_cases hp : p ∈ attemptPages (env.attempts w)
          · obtain ⟨pr, hpr, hpr1⟩ := List.mem_map.mp hp
            obtain ⟨_, hus, _, _⟩ :=
              register_char (env.attempts w) _ _ (hwf w) hreg pr hpr
            rw [hpr1] at hus
            rw [hus]
            exact ih p
          · rw [register_frame (env.attempts w) _ _ hreg p hp]
            exact ih p
      | true =>
          obtain ⟨hlen, hs₁⟩ := try_lock_runnable_success htl
          have hsp : s'.pages
              = (attempt_lock_for_execution gs.m.pages w (env.attempts w) true).1 := by
            rw [hs', hs₁]
          intro p
          show usageCoupled env (insert w gs.locked) p ((s'.pages p).usage)
          rw [hsp]
          by_cases hp : p ∈ attemptPages (env.attempts w)
          · obtain ⟨pr, hpr, hpr1⟩ := List.mem_map.mp hp
            obtain ⟨u, hg, hres⟩ :=
              alfe_success w (env.attempts w) gs.m.pages (hwf w) hlen pr hpr
            rw [hpr1] at hg hres
            rw [hres, PageInner.setUsage_usage]
            have hmem : (p, pr.2) ∈ env.attempts w := by
              rw [← hpr1, Prod.mk.eta]
              exact hpr
            have hother : (p, RequestedUsage.other pr.2) ∉ env.attempts w := by
              intro hin
              exact other_ne pr.2 (attempts_unique_usage hwf hin hmem)
            exact grant_coupling (ih p) hg hmem hother
          · rw [alfe_frame w true (env.attempts w) gs.m.pages p hp]
            refine coupling_frame_insert (ih p) ?_
            intro ru hin
            exact hp (List.mem_map_of_mem Prod.fst hin)
  | @retry gs s' r hr hstep ih =>
      rcases schedule_retryable_task_inv hstep with ⟨_, hs, hrn⟩ | ⟨hne, s₁, hcase⟩
      · subst hrn
        intro p
        rw [hs]
        exact ih p
      · rcases hcase with ⟨htl, hrr, hs'⟩ | ⟨htl, hrr, hs'⟩
        · subst hrr
          obtain ⟨pages2, hlen, hcr, hs₁⟩ := try_lock_retryable_success htl
          have hlen' : (attempt_lock_for_execution gs.m.pages
              (gs.m.retryable_task_queue.max' hne)
              (env.attempts (gs.m.retryable_task_queue.max' hne)) false).2.2
              = (env.attempts (gs.m.retryable_task_queue.max' hne)).length := hlen
          have hcr' : commitAndRemove gs.m.pages (gs.m.retryable_task_queue.max' hne)
              ((env.attempts (gs.m.retryable_task_queue.max' hne)).zip
                (attempt_lock_for_execution gs.m.pages
                  (gs.m.retryable_task_queue.max' hne)
                  (env.attempts (gs.m.retryable_task_queue.max' hne)) false).2.1)
              = some pages2 := hcr
          have hf₂ := alfe_retry_success (gs.m.retryable_task_queue.max' hne)
            (env.attempts (gs.m.retryable_task_queue.max' hne)) gs.m.pages hlen'
          intro p
          show usageCoupled env
            (insert (gs.m.retryable_task_queue.max' hne) gs.locked) p
            ((s'.pages p).usage)
          have hsp : s'.pages = pages2 := by rw [hs', hs₁]
          rw [hsp]
          by_cases hp : p ∈ attemptPages
              (env.attempts (gs.m.retryable_task_queue.max' hne))
          · obtain ⟨pr, hpr, hpr1⟩ := List.mem_map.mp hp
            obtain ⟨u, hzip, hg⟩ := forall₂_zip_mem hf₂ hpr
            obtain ⟨_, hus, _, _⟩ := commitAndRemove_char _ _ _
              (zip_fst_nodup _ _ (hwf (gs.m.retryable_task_queue.max' hne)))
              hcr' (pr, u) hzip
            rw [hpr1] at hus hg
            rw [hus]
            have hmem : (p, pr.2) ∈ env.attempts (gs.m.retryable_task_queue.max' hne) := by
              rw [← hpr1, Prod.mk.eta]
              exact hpr
            have hother : (p, RequestedUsage.other pr.2)
                ∉ env.attempts (gs.m.retryable_task_queue.max' hne) := by
              intro hin
              exact other_ne pr.2 (attempts_unique_usage hwf hin hmem)
            exact grant_coupling (ih p) hg hmem hother
          · have hpz : p ∉ ((env.attempts (gs.m.retryable_task_queue.max' hne)).zip
                (attempt_lock_for_execution gs.m.pages
                  (gs.m.retryable_task_queue.max' hne)
                  (env.attempts (gs.m.retryable_task_queue.max' hne)) false).2.1).map
                    (fun e => e.1.1) := by
              intro hin
              exact hp (zip_fst_pages_mem hin)
            rw [commitAndRemove_frame _ _ _ hcr' p hpz]
            refine coupling_frame_insert (ih p) ?_
            intro ru hin
            exact hp (List.mem_map_of_mem Prod.fst hin)
        · subst hrr
          obtain ⟨hs₁, _⟩ := try_lock_retryable_failure htl
          intro p
          have hsp : s'.pages = gs.m.pages := by rw [hs', hs₁]
          rw [hsp]
          exact ih p
  | @deschedule gs s' w hr hw hstep ih =>
      obtain ⟨n, pages', retryable', hn, huae, hs'⟩ := deschedule_task_inv hstep
      intro p
      have hsp : s'.pages = pages' := by rw [hs']
      show usageCoupled env (gs.locked.erase w) p ((s'.pages p).usage)
      rw [hsp]
      by_cases hp : p ∈ attemptPages (env.attempts w)
      · obtain ⟨pr, hpr, hpr1⟩ := List.mem_map.mp hp
        obtain ⟨u', b, hul, hres⟩ := uae_pages (env.attempts w) _ _ _ _ (hwf w) huae pr hpr
        rw [hpr1] at hul hres
        rw [hres, PageInner.setUsage_usage]
        have hmem : (p, pr.2) ∈ env.attempts w := by
          rw [← hpr1, Prod.mk.eta]
          exact hpr
        have hother : (p, RequestedUsage.other pr.2) ∉ env.attempts w := by
          intro hin
          exact other_ne pr.2 (attempts_unique_usage hwf hin hmem)
        exact unlock_coupling (ih p) hul hw hmem hother
      · rw [uae_frame (env.attempts w) _ _ _ _ huae p hp]
        refine coupling_frame_erase (ih p) ?_
        intro ru hin
        exact hp (List.mem_map_of_mem Prod.fst hin)
  | @clear gs hr ih =>
      intro p
      exact ih p

/-- C1: in every reachable state (under the data-model invariant of
pairwise-distinct pages per task and the API contract that `deschedule_task`
is applied only to currently-locked tasks), at most one task holds a
`Writable` lock on any page, and no task holds `Writable` on a page while a
*different* task holds `Readonly` or `Writable` on it: a task `w2` holding
any access to a page on which `w1` holds `Writable` must be `w1` itself.
Holding is the ghost notion of `GState.locked`: the task was granted all its
locks by a successful `schedule_task`/`schedule_retryable_task` call and has
not been descheduled since. -/
theorem C1_writable_mutual_exclusion (env : TaskEnv) (hwf : env.Wf)
    (gs : GState) (h : Reach env gs) (p : PageId) (w1 w2 : UniqueWeight)
    (h1 : w1 ∈ gs.locked)
    (h1w : (p, RequestedUsage.Writable) ∈ env.attempts w1)
    (h2 : w2 ∈ gs.locked)
    (h2a : (p, RequestedUsage.Writable) ∈ env.attempts w2 ∨
      (p, RequestedUsage.Readonly) ∈ env.attempts w2) :
    w2 = w1 := by
  have hc := reach_coupled env hwf h p
  have hw1 : w1 ∈ wHolders env gs.locked p := mem_wHolders.mpr ⟨h1, h1w⟩
  cases husage : (gs.m.pages p).usage with
  | Unused =>
      rw [husage] at hc
      rw [hc.2] at hw1
      exact absurd hw1 (Finset.not_mem_empty w1)
  | Readonly c =>
      rw [husage] at hc
      rw [hc.1] at hw1
      exact absurd hw1 (Finset.not_mem_empty w1)
  | Writable =>
      rw [husage] at hc
      obtain ⟨hr0, w0, hwH⟩ := hc
      have hw1' : w1 = w0 := by
        rw [hwH] at hw1
        exact Finset.mem_singleton.mp hw1
      rcases h2a with h2w | h2r
      · have hw2 : w2 ∈ wHolders env gs.locked p := mem_wHolders.mpr ⟨h2, h2w⟩
        rw [hwH] at hw2
        rw [Finset.mem_singleton.mp hw2, hw1']
      · have hw2 : w2 ∈ rHolders env gs.locked p := mem_rHolders.mpr ⟨h2, h2r⟩
        rw [hr0] at hw2
        exact absurd hw2 (Finset.not_mem_empty w2)

/-! ## Claim C5 -/

/-- Machine state plus ghost sets: `locked` (tasks currently granted all
their locks) and `offered` (tasks ever submitted through `schedule_task`). -/
structure GStateF where
  m : MachineState
  locked : Finset UniqueWeight
  offered : Finset UniqueWeight

/-- Fresh machine, no tasks yet. -/
def initialF : GStateF := ⟨initialMachine, ∅, ∅⟩

/-- Reachability with ghost tracking for C5.  Side conditions: each task is
submitted through `schedule_task` at most once (`w ∉ offered`, the
create-once-then-schedule lifecycle of the spec), and `deschedule_task` is
applied only to currently-locked tasks (the owner calls it after the task
executed). -/
inductive ReachF (env : TaskEnv) : GStateF → Prop where
  | init : ReachF env initialF
  | schedule {gs : GStateF} {s' : MachineState} {w : UniqueWeight} {ok : Bool} :
      ReachF env gs → w ∉ gs.offered → schedule_task env gs.m w = some (s', ok) →
      ReachF env ⟨s', if ok then insert w gs.locked else gs.locked, insert w gs.offered⟩
  | retry {gs : GStateF} {s' : MachineState} {r : Option UniqueWeight} :
      ReachF env gs → schedule_retryable_task env gs.m = some (s', r) →
      ReachF env ⟨s', match r with
                     | some w => insert w gs.locked
                     | none => gs.locked, gs.offered⟩
  | deschedule {gs : GStateF} {s' : MachineState} {w : UniqueWeight} :
      ReachF env gs → w ∈ gs.locked → deschedule_task env gs.m w = some s' →
      ReachF env ⟨s', gs.locked.erase w, gs.offered⟩
  | clear {gs : GStateF} :
      ReachF env gs → ReachF env ⟨clear_retryable_tasks gs.m, gs.locked, gs.offered⟩

/-- The blocked-map invariant: every task parked in a page's blocked map has
a matching lock attempt on that page, is not currently locked, and has been
offered; the retryable queue also contains only unlocked offered tasks. -/
def BlockedInv (env : TaskEnv) (gs : GStateF) : Prop :=
  (∀ p x, x ∈ (gs.m.pages p).writable_blocked_tasks →
    (p, RequestedUsage.Writable) ∈ env.attempts x ∧ x ∉ gs.locked ∧ x ∈ gs.offered) ∧
  (∀ p x, x ∈ (gs.m.pages p).readonly_blocked_tasks →
    (p, RequestedUsage.Readonly) ∈ env.attempts x ∧ x ∉ gs.locked ∧ x ∈ gs.offered) ∧
  (∀ x ∈ gs.m.retryable_task_queue, x ∉ gs.locked ∧ x ∈ gs.offered) ∧
  gs.locked ⊆ gs.offered

theorem reachF_blocked (env : TaskEnv) (hwf : env.Wf) :
    ∀ {gs : GStateF}, ReachF env gs → BlockedInv env gs := by
  intro gs h
  induction h with
  | init =>
      refine ⟨?_, ?_, ?_, ?_⟩
      · intro p x hx; exact absurd hx (Finset.not_mem_empty x)
      · intro p x hx; exact absurd hx (Finset.not_mem_empty x)
      · intro x hx; exact absurd hx (Finset.not_mem_empty x)
      · exact Finset.empty_subset _
  | @schedule gs s' w ok hr hoff hstep ih =>
      obtain ⟨ihW, ihR, ihQ, ihL⟩ := ih
      obtain ⟨s₁, htl, hs'⟩ := schedule_task_inv hstep
      cases ok with
      | false =>
          obtain ⟨pages2, pages3, hlt, hrb, hreg, hs₁⟩ := try_lock_runnable_failure htl
          unfold rollback_locking at hrb
          have hm2 : ∀ q,
              (pages2 q).writable_blocked_tasks
                = (gs.m.pages q).writable_blocked_tasks ∧
              (pages2 q).readonly_blocked_tasks
                = (gs.m.pages q).readonly_blocked_tasks := by
            intro q
            have h1 := unlockList_maps _ _ _ hrb q
            have h2 := alfe_maps w true (env.attempts w) gs.m.pages q
            exact ⟨h1.1.trans h2.1, h1.2.trans h2.2⟩
          have hsp : s'.pages = pages3 := by rw [hs', hs₁]
          have hsq : s'.retryable_task_queue = gs.m.retryable_task_queue := by
            rw [hs', hs₁]
          have hmaps3W : ∀ p x, x ∈ (pages3 p).writable_blocked_tasks →
              (p, RequestedUsage.Writable) ∈ env.attempts x ∧
              x ∉ gs.locked ∧ x ∈ insert w gs.offered := by
            intro p x hx
            by_cases hp : p ∈ attemptPages (env.attempts w)
            · obtain ⟨pr, hpr, hpr1⟩ := List.mem_map.mp hp
              obtain ⟨hni, _, hbt, hot⟩ :=
                register_char (env.attempts w) _ _ (hwf w) hreg pr hpr
              rw [hpr1] at hbt hot
              cases hru : pr.2 with
              | Writable =>
                  rw [hru] at hbt
                  rw [show PageInner.blocked_tasks (pages3 p) RequestedUsage.Writable
                      = (pages3 p).writable_blocked_tasks from rfl] at hbt
                  rw [hbt] at hx
                  rcases Finset.mem_insert.mp hx with hx' | hx'
                  · subst hx'
                    refine ⟨?_, fun hc => hoff (ihL hc), Finset.mem_insert_self _ _⟩
                    rw [← hpr1, ← hru, Prod.mk.eta]
                    exact hpr
                  · rw [show PageInner.blocked_tasks (pages2 p) RequestedUsage.Writable
                        = (pages2 p).writable_blocked_tasks from rfl, (hm2 p).1] at hx'
                    obtain ⟨ha, hb, hc⟩ := ihW p x hx'
                    exact ⟨ha, hb, Finset.mem_insert_of_mem hc⟩
              | Readonly =>
                  rw [hru] at hot
                  rw [show RequestedUsage.other RequestedUsage.Readonly
                      = RequestedUsage.Writable from rfl] at hot
                  rw [show PageInner.blocked_tasks (pages3 p) RequestedUsage.Writable
                      = (pages3 p).writable_blocked_tasks from rfl,
                    show PageInner.blocked_tasks (pages2 p) RequestedUsage.Writable
                      = (pages2 p).writable_blocked_tasks from rfl] at hot
                  rw [hot, (hm2 p).1] at hx
                  obtain ⟨ha, hb, hc⟩ := ihW p x hx
                  exact ⟨ha, hb, Finset.mem_insert_of_mem hc⟩
            · rw [register_frame (env.attempts w) _ _ hreg p hp, (hm2 p).1] at hx
              obtain ⟨ha, hb, hc⟩ := ihW p x hx
              exact ⟨ha, hb, Finset.mem_insert_of_mem hc⟩
          have hmaps3R : ∀ p x, x ∈ (pages3 p).readonly_blocked_tasks →
              (p, RequestedUsage.Readonly) ∈ env.attempts x ∧
              x ∉ gs.locked ∧ x ∈ insert w gs.offered := by
            intro p x hx
            by_cases hp : p ∈ attemptPages (env.attempts w)
            · obtain ⟨pr, hpr, hpr1⟩ := List.mem_map.mp hp
              obtain ⟨hni, _, hbt, hot⟩ :=
                register_char (env.attempts w) _ _ (hwf w) hreg pr hpr
              rw [hpr1] at hbt hot
              cases hru : pr.2 with
              | Readonly =>
                  rw [hru] at hbt
                  rw [show PageInner.blocked_tasks (pages3 p) RequestedUsage.Readonly
                      = (pages3 p).readonly_blocked_tasks from rfl] at hbt
                  rw [hbt] at hx
                  rcases Finset.mem_insert.mp hx with hx' | hx'
                  · subst hx'
                    refine ⟨?_, fun hc => hoff (ihL hc), Finset.mem_insert_self _ _⟩
                    rw [← hpr1, ← hru, Prod.mk.eta]
                    exact hpr
                  · rw [show PageInner.blocked_tasks (pages2 p) RequestedUsage.Readonly
                        = (pages2 p).readonly_blocked_tasks from rfl, (hm2 p).2] at hx'
                    obtain ⟨ha, hb, hc⟩ := ihR p x hx'
                    exact ⟨ha, hb, Finset.mem_insert_of_mem hc⟩
              | Writable =>
                  rw [hru] at hot
                  rw [show RequestedUsage.other RequestedUsage.Writable
                      = RequestedUsage.Readonly from rfl] at hot
                  rw [show PageInner.blocked_tasks (pages3 p) RequestedUsage.Readonly
                      = (pages3 p).readonly_blocked_tasks from rfl,
                    show PageInner.blocked_tasks (pages2 p) RequestedUsage.Readonly
                      = (pages2 p).readonly_blocked_tasks from rfl] at hot
                  rw [hot, (hm2 p).2] at hx
                  obtain ⟨ha, hb, hc⟩ := ihR p x hx
                  exact ⟨ha, hb, Finset.mem_insert_of_mem hc⟩
            · rw [register_frame (env.attempts w) _ _ hreg p hp, (hm2 p).2] at hx
              obtain ⟨ha, hb, hc⟩ := ihR p x hx
              exact ⟨ha, hb, Finset.mem_insert_of_mem hc⟩
          refine ⟨?_, ?_, ?_, ?_⟩
          · intro p x hx
            rw [hsp] at hx
            exact hmaps3W p x hx
          · intro p x hx
            rw [hsp] at hx
            exact hmaps3R p x hx
          · intro x hx
            rw [hsq] at hx
            obtain ⟨ha, hb⟩ := ihQ x hx
            exact ⟨ha, Finset.mem_insert_of_mem hb⟩
          · exact ihL.trans (Finset.subset_insert w gs.offered)
      | true =>
          obtain ⟨hlen, hs₁⟩ := try_lock_runnable_success htl
          have hsp : ∀ q,
              (s'.pages q).writable_blocked_tasks
                = (gs.m.pages q).writable_blocked_tasks ∧
              (s'.pages q).readonly_blocked_tasks
                = (gs.m.pages q).readonly_blocked_tasks := by
            intro q
            rw [hs', hs₁]
            exact alfe_maps w true (env.attempts w) gs.m.pages q
          have hsq : s'.retryable_task_queue = gs.m.retryable_task_queue := by
            rw [hs', hs₁]
          refine ⟨?_, ?_, ?_, ?_⟩
          · intro p x hx
            rw [(hsp p).1] at hx
            obtain ⟨ha, hb, hc⟩ := ihW p x hx
            refine ⟨ha, ?_, Finset.mem_insert_of_mem hc⟩
            intro hmem
            rcases Finset.mem_insert.mp hmem with hx' | hx'
            · subst hx'; exact hoff hc
            · exact hb hx'
          · intro p x hx
            rw [(hsp p).2] at hx
            obtain ⟨ha, hb, hc⟩ := ihR p x hx
            refine ⟨ha, ?_, Finset.mem_insert_of_mem hc⟩
            intro hmem
            rcases Finset.mem_insert.mp hmem with hx' | hx'
            · subst hx'; exact hoff hc
            · exact hb hx'
          · intro x hx
            rw [hsq] at hx
            obtain ⟨ha, hb⟩ := ihQ x hx
            refine ⟨?_, Finset.mem_insert_of_mem hb⟩
            intro hmem
            rcases Finset.mem_insert.mp hmem with hx' | hx'
            · subst hx'; exact hoff hb
            · exact ha hx'
          · intro x hx
            rcases Finset.mem_insert.mp hx with hx' | hx'
            · subst hx'; exact Finset.mem_insert_self _ _
            · exact Finset.mem_insert_of_mem (ihL hx')
  | @retry gs s' r hr hstep ih =>
      obtain ⟨ihW, ihR, ihQ, ihL⟩ := ih
      rcases schedule_retryable_task_inv hstep with ⟨_, hs, hrn⟩ | ⟨hne, s₁, hcase⟩
      · subst hrn
        rw [hs]
        exact ⟨ihW, ihR, ihQ, ihL⟩
      · rcases hcase with ⟨htl, hrr, hs'⟩ | ⟨htl, hrr, hs'⟩
        · subst hrr
          obtain ⟨pages2, hlen, hcr, hs₁⟩ := try_lock_retryable_success htl
          set wmax := gs.m.retryable_task_queue.max' hne with hwmax
          have hwq : wmax ∈ gs.m.retryable_task_queue := Finset.max'_mem _ hne
          obtain ⟨hwnl, hwo⟩ := ihQ wmax hwq
          have hcr' : commitAndRemove gs.m.pages wmax
              ((env.attempts wmax).zip
                (attempt_lock_for_execution gs.m.pages wmax
                  (env.attempts wmax) false).2.1)
              = some pages2 := hcr
          have hndz := zip_fst_nodup (env.attempts wmax)
            (attempt_lock_for_execution gs.m.pages wmax
              (env.attempts wmax) false).2.1 (hwf wmax)
          have hsp : s'.pages = pages2 := by rw [hs', hs₁]
          have hsq : s'.retryable_task_queue
              = wakeReadonly pages2 (gs.m.retryable_task_queue.erase wmax)
                  (env.attempts wmax) := by
            rw [hs', hs₁]
          have hmapsW : ∀ p x, x ∈ (pages2 p).writable_blocked_tasks →
              (p, RequestedUsage.Writable) ∈ env.attempts x ∧
              x ∉ insert wmax gs.locked ∧ x ∈ gs.offered := by
            intro p x hx
            by_cases hp : p ∈ attemptPages (env.attempts wmax)
            · obtain ⟨pr, hpr, hpr1⟩ := List.mem_map.mp hp
              have hprmem : (p, pr.2) ∈ env.attempts wmax := by
                rw [← hpr1, Prod.mk.eta]; exact hpr
              obtain ⟨u, hzip, _⟩ := forall₂_zip_mem
                (alfe_retry_success wmax (env.attempts wmax) gs.m.pages hlen) hpr
              obtain ⟨hmem, _, hbt, hot⟩ :=
                commitAndRemove_char _ _ _ hndz hcr' (pr, u) hzip
              rw [hpr1] at hbt hot
              cases hru : pr.2 with
              | Writable =>
                  rw [hru] at hbt
                  rw [show PageInner.blocked_tasks (pages2 p) RequestedUsage.Writable
                      = (pages2 p).writable_blocked_tasks from rfl,
                    show PageInner.blocked_tasks (gs.m.pages p) RequestedUsage.Writable
                      = (gs.m.pages p).writable_blocked_tasks from rfl] at hbt
                  rw [hbt] at hx
                  obtain ⟨hxw, hx'⟩ := Finset.mem_erase.mp hx
                  obtain ⟨ha, hb, hc⟩ := ihW p x hx'
                  refine ⟨ha, ?_, hc⟩
                  intro hmem'
                  rcases Finset.mem_insert.mp hmem' with hx'' | hx''
                  · exact hxw hx''
                  · exact hb hx''
              | Readonly =>
                  rw [hru] at hot
                  rw [show RequestedUsage.other RequestedUsage.Readonly
                      = RequestedUsage.Writable from rfl,
                    show PageInner.blocked_tasks (pages2 p) RequestedUsage.Writable
                      = (pages2 p).writable_blocked_tasks from rfl,
                    show PageInner.blocked_tasks (gs.m.pages p) RequestedUsage.Writable
                      = (gs.m.pages p).writable_blocked_tasks from rfl] at hot
                  rw [hot] at hx
                  obtain ⟨ha, hb, hc⟩ := ihW p x hx
                  refine ⟨ha, ?_, hc⟩
                  intro hmem'
                  rcases Finset.mem_insert.mp hmem' with hx'' | hx''
                  · subst hx''
                    rw [hru] at hprmem
                    exact absurd (attempts_unique_usage hwf ha hprmem) (by decide)
                  · exact hb hx''
            · have hpz : p ∉ ((env.attempts wmax).zip
                  (attempt_lock_for_execution gs.m.pages wmax
                    (env.attempts wmax) false).2.1).map (fun e => e.1.1) := by
                intro hin
                exact hp (zip_fst_pages_mem hin)
              rw [commitAndRemove_frame _ _ _ hcr' p hpz] at hx
              obtain ⟨ha, hb, hc⟩ := ihW p x hx
              refine ⟨ha, ?_, hc⟩
              intro hmem'
              rcases Finset.mem_insert.mp hmem' with hx'' | hx''
              · subst hx''
                exact hp (List.mem_map_of_mem Prod.fst ha)
              · exact hb hx''
          have hmapsR : ∀ p x, x ∈ (pages2 p).readonly_blocked_tasks →
              (p, RequestedUsage.Readonly) ∈ env.attempts x ∧
              x ∉ insert wmax gs.locked ∧ x ∈ gs.offered := by
            intro p x hx
            by_cases hp : p ∈ attemptPages (env.attempts wmax)
            · obtain ⟨pr, hpr, hpr1⟩ := List.mem_map.mp hp
              have hprmem : (p, pr.2) ∈ env.attempts wmax := by
                rw [← hpr1, Prod.mk.eta]; exact hpr
              obtain ⟨u, hzip, _⟩ := forall₂_zip_mem
                (alfe_retry_success wmax (env.attempts wmax) gs.m.pages hlen) hpr
              obtain ⟨hmem, _, hbt, hot⟩ :=
                commitAndRemove_char _ _ _ hndz hcr' (pr, u) hzip
              rw [hpr1] at hbt hot
              cases hru : pr.2 with
              | Readonly =>
                  rw [hru] at hbt
                  rw [show PageInner.blocked_tasks (pages2 p) RequestedUsage.Readonly
                      = (pages2 p).readonly_blocked_tasks from rfl,
                    show PageInner.blocked_tasks (gs.m.pages p) RequestedUsage.Readonly
                      = (gs.m.pages p).readonly_blocked_tasks from rfl] at hbt
                  rw [hbt] at hx
                  obtain ⟨hxw, hx'⟩ := Finset.mem_erase.mp hx
                  obtain ⟨ha, hb, hc⟩ := ihR p x hx'
                  refine ⟨ha, ?_, hc⟩
                  intro hmem'
                  rcases Finset.mem_insert.mp hmem' with hx'' | hx''
                  · exact hxw hx''
                  · exact hb hx''
              | Writable =>
                  rw [hru] at hot
                  rw [show RequestedUsage.other RequestedUsage.Writable
                      = RequestedUsage.Readonly from rfl,
                    show PageInner.blocked_tasks (pages2 p) RequestedUsage.Readonly
                      = (pages2 p).readonly_blocked_tasks from rfl,
                    show PageInner.blocked_tasks (gs.m.pages p) RequestedUsage.Readonly
                      = (gs.m.pages p).readonly_blocked_tasks from rfl] at hot
                  rw [hot] at hx
                  obtain ⟨ha, hb, hc⟩ := ihR p x hx
                  refine ⟨ha, ?_, hc⟩
                  intro hmem'
                  rcases Finset.mem_insert.mp hmem' with hx'' | hx''
                  · subst hx''
                    rw [hru] at hprmem
                    exact absurd (attempts_unique_usage hwf ha hprmem) (by decide)
                  · exact hb hx''
            · have hpz : p ∉ ((env.attempts wmax).zip
                  (attempt_lock_for_execution gs.m.pages wmax
                    (env.attempts wmax) false).2.1).map (fun e => e.1.1) := by
                intro hin
                exact hp (zip_fst_pages_mem hin)
              rw [commitAndRemove_frame _ _ _ hcr' p hpz] at hx
              obtain ⟨ha, hb, hc⟩ := ihR p x hx
              refine ⟨ha, ?_, hc⟩
              intro hmem'
              rcases Finset.mem_insert.mp hmem' with hx'' | hx''
              · subst hx''
                exact hp (List.mem_map_of_mem Prod.fst ha)
              · exact hb hx''
          refine ⟨?_, ?_, ?_, ?_⟩
          · intro p x hx
            rw [hsp] at hx
            exact hmapsW p x hx
          · intro p x hx
            rw [hsp] at hx
            exact hmapsR p x hx
          · intro x hx
            rw [hsq] at hx
            rcases wakeReadonly_sub _ pages2 _ hx with hx' | ⟨p, hpL, hx'⟩
            · obtain ⟨hxw, hx''⟩ := Finset.mem_erase.mp hx'
              obtain ⟨ha, hb⟩ := ihQ x hx''
              refine ⟨?_, hb⟩
              intro hmem'
              rcases Finset.mem_insert.mp hmem' with hx3 | hx3
              · exact hxw hx3
              · exact ha hx3
            · obtain ⟨_, hb, hc⟩ := hmapsR p x hx'
              exact ⟨hb, hc⟩
          · intro x hx
            rcases Finset.mem_insert.mp hx with hx' | hx'
            · subst hx'; exact hwo
            · exact ihL hx'
        · subst hrr
          obtain ⟨hs₁, _⟩ := try_lock_retryable_failure htl
          have hsp : s'.pages = gs.m.pages := by rw [hs', hs₁]
          have hsq : s'.retryable_task_queue
              = gs.m.retryable_task_queue.erase
                  (gs.m.retryable_task_queue.max' hne) := by
            rw [hs', hs₁]
          refine ⟨?_, ?_, ?_, ihL⟩
          · intro p x hx
            rw [hsp] at hx
            exact ihW p x hx
          · intro p x hx
            rw [hsp] at hx
            exact ihR p x hx
          · intro x hx
            rw [hsq] at hx
            exact ihQ x (Finset.mem_of_mem_erase hx)
  | @deschedule gs s' w hr hw hstep ih =>
      obtain ⟨ihW, ihR, ihQ, ihL⟩ := ih
      obtain ⟨n, pages', retryable', hn, huae, hs'⟩ := deschedule_task_inv hstep
      have hsp : s'.pages = pages' := by rw [hs']
      have hsq : s'.retryable_task_queue = retryable' := by rw [hs']
      have hm := uae_maps (env.attempts w) _ _ _ _ huae
      refine ⟨?_, ?_, ?_, ?_⟩
      · intro p x hx
        rw [hsp, (hm p).1] at hx
        obtain ⟨ha, hb, hc⟩ := ihW p x hx
        exact ⟨ha, fun hm' => hb (Finset.mem_of_mem_erase hm'), hc⟩
      · intro p x hx
        rw [hsp, (hm p).2] at hx
        obtain ⟨ha, hb, hc⟩ := ihR p x hx
        exact ⟨ha, fun hm' => hb (Finset.mem_of_mem_erase hm'), hc⟩
      · intro x hx
        rw [hsq] at hx
        rcases uae_queue_mem (env.attempts w) _ _ _ _ huae hx with hx' | ⟨p', hx'⟩
        · obtain ⟨ha, hb⟩ := ihQ x hx'
          exact ⟨fun hm' => ha (Finset.mem_of_mem_erase hm'), hb⟩
        · rcases hx' with hx' | hx'
          · obtain ⟨_, hb, hc⟩ := ihW p' x hx'
            exact ⟨fun hm' => hb (Finset.mem_of_mem_erase hm'), hc⟩
          · obtain ⟨_, hb, hc⟩ := ihR p' x hx'
            exact ⟨fun hm' => hb (Finset.mem_of_mem_erase hm'), hc⟩
      · exact (Finset.erase_subset w gs.locked).trans ihL
  | @clear gs hr ih =>
      obtain ⟨ihW, ihR, ihQ, ihL⟩ := ih
      refine ⟨ihW, ihR, ?_, ihL⟩
      intro x hx
      exact absurd hx (Finset.not_mem_empty x)

/-- C5 amended: in every state reachable by the public operations under the
task lifecycle preconditions (each task submitted via `schedule_task` at most
once; `deschedule_task` applied only to currently-locked tasks), a task
appears in at most one of a page's two blocked-task maps, and while it is in
either map it is not locked (it holds no lock at all, in particular none on
that page's address). -/
theorem C5_amended_blocked_maps (env : TaskEnv) (hwf : env.Wf)
    (gs : GStateF) (h : ReachF env gs) (p : PageId) (x : UniqueWeight) :
    ¬(x ∈ (gs.m.pages p).writable_blocked_tasks ∧
      x ∈ (gs.m.pages p).readonly_blocked_tasks) ∧
    ((x ∈ (gs.m.pages p).writable_blocked_tasks ∨
      x ∈ (gs.m.pages p).readonly_blocked_tasks) → x ∉ gs.locked) := by
  obtain ⟨hWmap, hRmap, _, _⟩ := reachF_blocked env hwf h
  constructor
  · rintro ⟨hw, hrd⟩
    have h1 := (hWmap p x hw).1
    have h2 := (hRmap p x hrd).1
    exact absurd (attempts_unique_usage hwf h1 h2) (by decide)
  · rintro (hx | hx)
    · exact (hWmap p x hx).2.1
    · exact (hRmap p x hx).2.1

/-! ## Concrete environments and traces (witnesses and counterexamples) -/

/-- Two writer tasks (weights 100 and 99) contending for page 0 — the shape
of the repo's `test_schedule_conflicting_task`. -/
def exEnv : TaskEnv :=
  ⟨fun w => if w = 100 then [(0, RequestedUsage.Writable)]
    else if w = 99 then [(0, RequestedUsage.Writable)] else []⟩

theorem exEnv_wf : exEnv.Wf := by
  intro w
  show (attemptPages (if w = 100 then [(0, RequestedUsage.Writable)]
    else if w = 99 then [(0, RequestedUsage.Writable)] else [])).Nodup
  split
  · decide
  · split
    · decide
    · decide

/-- State after `schedule_task` of writer 100 (succeeds). -/
def exS1 : MachineState :=
  ((schedule_task exEnv initialMachine 100).map Prod.fst).getD initialMachine

/-- State after additionally `schedule_task` of writer 99 (fails, parked). -/
def exS2 : MachineState :=
  ((schedule_task exEnv exS1 99).map Prod.fst).getD initialMachine

/-- State after `deschedule_task` of writer 100. -/
def exS3 : MachineState := (deschedule_task exEnv exS2 100).getD initialMachine

/-- State after `clear_retryable_tasks`. -/
def exS4 : MachineState := clear_retryable_tasks exS3

/-- State after re-submitting task 99 through `schedule_task` (succeeds). -/
def exS5 : MachineState :=
  ((schedule_task exEnv exS4 99).map Prod.fst).getD initialMachine

/-- C5 counterexample: the public-operation sequence of the repo's
`test_schedule_conflicting_task` — schedule writer 100 (`Some`), schedule
writer 99 (`None`, parked on page 0), deschedule 100, `clear_retryable_tasks`,
then `schedule_task` of 99 again, which succeeds (`Some`), granting 99 the
writable lock on page 0 (usage `Writable`, never descheduled afterwards)
while 99 still appears in page 0's writable-blocked map.  This violates the
claim that a task appears in a blocked map only while it does not hold a
lock on that page's address. -/
theorem C5_counterexample :
    (schedule_task exEnv initialMachine 100).map Prod.snd = some true ∧
    (schedule_task exEnv exS1 99).map Prod.snd = some false ∧
    (deschedule_task exEnv exS2 100).isSome = true ∧
    (schedule_task exEnv exS4 99).map Prod.snd = some true ∧
    (exS5.pages 0).usage = Usage.Writable ∧
    99 ∈ (exS5.pages 0).writable_blocked_tasks := by
  decide

/-- Witness for C1 on a one-step trace. -/
theorem C1_writable_mutual_exclusion_witness :
    (100 : UniqueWeight) ∈ insert (100 : UniqueWeight) (∅ : Finset UniqueWeight) ∧
    (0, RequestedUsage.Writable) ∈ exEnv.attempts 100 ∧
    (100 : UniqueWeight) = 100 :=
  ⟨by decide, by decide,
    C1_writable_mutual_exclusion exEnv exEnv_wf
      ⟨exS1, if true then insert 100 (initialG).locked else (initialG).locked⟩
      (Reach.schedule Reach.init (by rfl)) 0 100 100
      (by decide) (by decide) (by decide) (Or.inl (by decide))⟩

/-- Witness for C2 at a concrete page and request. -/
theorem C2_grant_blocks_no_heavier_witness :
    attempt_lock_address 10 pageWriterFiveParked RequestedUsage.Readonly
      = LockStatus.Succeded (Usage.Readonly 1) ∧
    (((∀ x ∈ pageWriterFiveParked.writable_blocked_tasks, x ≤ 10) ∧
      (∀ x ∈ pageWriterFiveParked.readonly_blocked_tasks, x ≤ 10)) ∨
     (RequestedUsage.Readonly = RequestedUsage.Readonly ∧
      ∀ x ∈ pageWriterFiveParked.writable_blocked_tasks, x < 10)) :=
  ⟨by decide,
    @C2_grant_blocks_no_heavier 10 pageWriterFiveParked RequestedUsage.Readonly
      (Usage.Readonly 1) (by decide)⟩

/-- A state in which page 0 is held `Writable` (everything else fresh). -/
def c3S : MachineState :=
  { initialMachine with
      pages := fun p => if p = 0 then PageInner.mk Usage.Writable ∅ ∅
        else PageInner.default }

theorem c3S_wf : WfUsage c3S.pages := by
  intro p c hc
  by_cases hp : p = 0
  · subst hp
    have h0 : (c3S.pages 0).usage = Usage.Writable := by decide
    rw [h0] at hc
    exact absurd hc (by simp)
  · have h0 : c3S.pages p = PageInner.default := by
      show (if p = 0 then PageInner.mk Usage.Writable ∅ ∅ else PageInner.default)
        = PageInner.default
      rw [if_neg hp]
    rw [h0] at hc
    exact absurd hc (by simp [PageInner.default])

/-- The state returned by the failing `schedule_task` of writer 99 on `c3S`. -/
def c3S' : MachineState :=
  ((schedule_task exEnv c3S 99).map Prod.fst).getD c3S

/-- Witness for C3 on a concrete failing schedule. -/
theorem C3_failed_schedule_witness :
    (attemptPages (exEnv.attempts 99)).Nodup ∧
    (c3S'.pages 0).usage = (c3S.pages 0).usage ∧
    99 ∈ (c3S'.pages 0).blocked_tasks RequestedUsage.Writable :=
  ⟨by decide,
    @C3_failed_schedule_rolls_back_and_registers exEnv c3S c3S' 99
      (by decide) c3S_wf (by rfl) (0, RequestedUsage.Writable) (by decide)⟩

/-- Witness for C4 after one schedule step. -/
theorem C4_total_eq_active_plus_handled_witness :
    exS1.total_task_count = exS1.active_task_count + exS1.handled_task_count :=
  C4_total_eq_active_plus_handled exEnv exS1
    (ReachM.schedule ReachM.init (by rfl : schedule_task exEnv initialMachine 100
      = some (exS1, true)))

/-- Witness for the amended C5 on a two-step trace with a genuinely parked
task. -/
theorem C5_amended_blocked_maps_witness :
    (99 : UniqueWeight) ∈ (exS2.pages 0).writable_blocked_tasks ∧
    ¬((99 : UniqueWeight) ∈ (exS2.pages 0).writable_blocked_tasks ∧
      (99 : UniqueWeight) ∈ (exS2.pages 0).readonly_blocked_tasks) ∧
    (((99 : UniqueWeight) ∈ (exS2.pages 0).writable_blocked_tasks ∨
      (99 : UniqueWeight) ∈ (exS2.pages 0).readonly_blocked_tasks) →
      (99 : UniqueWeight) ∉
        (if false then insert (99 : UniqueWeight)
            (if true then insert (100 : UniqueWeight) (initialF).locked
             else (initialF).locked)
         else (if true then insert (100 : UniqueWeight) (initialF).locked
               else (initialF).locked))) :=
  ⟨by decide,
    (C5_amended_blocked_maps exEnv exEnv_wf
      ⟨exS2, if false then insert 99
          (if true then insert 100 (initialF).locked else (initialF).locked)
        else (if true then insert 100 (initialF).locked else (initialF).locked),
        insert 99 (insert 100 (initialF).offered)⟩
      (ReachF.schedule (ReachF.schedule ReachF.init (by decide) (by rfl))
        (by decide) (by rfl)) 0 99).1,
    (C5_amended_blocked_maps exEnv exEnv_wf
      ⟨exS2, if false then insert 99
          (if true then insert 100 (initialF).locked else (initialF).locked)
        else (if true then insert 100 (initialF).locked else (initialF).locked),
        insert 99 (insert 100 (initialF).offered)⟩
      (ReachF.schedule (ReachF.schedule ReachF.init (by decide) (by rfl))
        (by decide) (by rfl)) 0 99).2⟩

/-- Writer 100 then two readers 99 and 98, all on page 0 — the shape of the
repo's `test_schedule_readonly_after_writable`. -/
def rdEnv : TaskEnv :=
  ⟨fun w => if w = 100 then [(0, RequestedUsage.Writable)]
    else if w = 99 then [(0, RequestedUsage.Readonly)]
    else if w = 98 then [(0, RequestedUsage.Readonly)] else []⟩

/-- Writer 100 holds page 0. -/
def rdS1 : MachineState :=
  ((schedule_task rdEnv initialMachine 100).map Prod.fst).getD initialMachine

/-- Reader 99 parked. -/
def rdS2 : MachineState :=
  ((schedule_task rdEnv rdS1 99).map Prod.fst).getD initialMachine

/-- Reader 98 parked. -/
def rdS3 : MachineState :=
  ((schedule_task rdEnv rdS2 98).map Prod.fst).getD initialMachine

/-- Writer 100 descheduled: reader 99 becomes retryable. -/
def rdS4 : MachineState := (deschedule_task rdEnv rdS3 100).getD initialMachine

/-- Reader 99 retried successfully: reader 98 is woken as a side effect. -/
def rdS5 : MachineState :=
  ((schedule_retryable_task rdEnv rdS4).map Prod.fst).getD initialMachine

/-- Witness for C7 on a concrete successful retry waking a second reader. -/
theorem C7_retry_success_wakes_readers_witness :
    (0, RequestedUsage.Readonly) ∈ rdEnv.attempts 99 ∧
    (rdS5.pages 0).heaviest_blocked_readonly_task = some 98 ∧
    98 ∈ rdS5.retryable_task_queue :=
  ⟨by decide, by decide,
    C7_retry_success_wakes_readers
      (by rfl : schedule_retryable_task rdEnv rdS4 = some (rdS5, some 99))
      0 (by decide) 98 (by decide)⟩

/-- Witness for C8 on a concrete pop-and-succeed call. -/
theorem C8_schedule_retryable_counters_witness :
    rdS4.retryable_task_queue.Nonempty ∧
    rdS5.reschedule_count = rdS4.reschedule_count + 1 ∧
    rdS5.rescheduled_task_count = rdS4.rescheduled_task_count + 1 :=
  ⟨by decide,
    ((C8_schedule_retryable_counters
      (by rfl : schedule_retryable_task rdEnv rdS4 = some (rdS5, some 99))).2
      (by decide)).1,
    ((C8_schedule_retryable_counters
      (by rfl : schedule_retryable_task rdEnv rdS4 = some (rdS5, some 99))).2
      (by decide)).2.1 (by decide)⟩

/-- Witness for C10 on a concrete successful schedule. -/
theorem C10_schedule_success_frame_witness :
    exS1.retryable_task_queue = initialMachine.retryable_task_queue ∧
    exS1.total_task_count = initialMachine.total_task_count + 1 ∧
    exS1.active_task_count = initialMachine.active_task_count + 1 :=
  ⟨(C10_schedule_success_frame
      (by rfl : schedule_task exEnv initialMachine 100 = some (exS1, true))).1,
    (C10_schedule_success_frame
      (by rfl : schedule_task exEnv initialMachine 100 = some (exS1, true))).2.2.2.1,
    (C10_schedule_success_frame
      (by rfl : schedule_task exEnv initialMachine 100 = some (exS1, true))).2.2.2.2.1⟩

end Sched
